import Mathlib

/-!
# Verification of the Smart Library Management System (`src/library.c`)

Shallow embedding of the in-memory indexing layer (hash table keyed by ISBN,
binary search tree keyed by title, singly linked user list) together with the
borrow/return state machine, the report engine and the flat-file persistence
codec, followed by theorems settling the specification claims.

Conventions of the embedding:
* C `char*` strings become `String` (ASCII assumed, so `strcmp` agrees with
  the lexicographic order on `String` and byte values are `Char.toNat`).
* The C `int` fields become `Int` (`borrow_count`, user ids); the `available`
  field is only ever used as a boolean (`0`/`1`, tested with `!`), so it is
  embedded as `Bool`.
* `unsigned int` arithmetic in the hash function wraps modulo `2 ^ 32`.
* Pointer-mutating code becomes explicit state passing: the global variables
  `hash_table`, `title_bst_root`, `user_list` and `next_user_id` are gathered
  into a `LibState` record and every operation returns the updated record.
* A BST node stores the (immutable) title together with the ISBN of the Book
  record it references; the ISBN is the identity of the referenced record.
* The fixed array `borrowed_books` plus `borrowed_count` of a user becomes the
  list of its first `borrowed_count` entries, in order.
-/

/-- `Book` record of `library.c` (without the intrusive `next` pointer, which
is represented by the position of the record inside its bucket chain). -/
structure Book where
  isbn : String
  title : String
  author : String
  genre : String
  available : Bool
  borrow_count : Int
  deriving DecidableEq, Repr

/-- `User` record of `library.c`: `borrowed` is the list of the first
`borrowed_count` entries of `borrowed_books`, in array order. -/
structure User where
  id : Int
  name : String
  borrowed : List String
  deriving DecidableEq, Repr

/-- `TreeNode` of `library.c`: the node keeps the title used for ordering and
the ISBN identifying the `Book` record the C node points to. -/
inductive TitleTree where
  | leaf : TitleTree
  | node (title : String) (isbn : String) (l : TitleTree) (r : TitleTree) : TitleTree
  deriving DecidableEq, Repr

/-- The global mutable state of `library.c`: `hash_table`, `title_bst_root`,
`user_list`, `next_user_id`.  Buckets are indexed by `Nat`; all code only
ever touches indices below `HASH_TABLE_SIZE = 101`. -/
structure LibState where
  table : Nat → List Book
  bst : TitleTree
  users : List User
  nextUserId : Int

/-- `HASH_TABLE_SIZE` -/
def HASH_TABLE_SIZE : Nat := 101

/-- `MAX_BORROWED` -/
def MAX_BORROWED : Nat := 10

/-- `MAX_BOOKS` -/
def MAX_BOOKS : Nat := 500

/-- `MAX_USERS` -/
def MAX_USERS : Nat := 100

/-- One step of `hash_function`'s loop: `hash = (hash * 31) + *isbn++` in
`unsigned int` arithmetic. -/
def hash_step (h : Nat) (c : Char) : Nat := (h * 31 + c.toNat) % 4294967296

/-- `hash_function`: polynomial hash base 31 over the bytes of the ISBN in
wrapping `unsigned int` arithmetic, reduced modulo the table size. -/
def hash_function (isbn : String) : Nat :=
  (isbn.data.foldl hash_step 0) % HASH_TABLE_SIZE

/-- The initial / empty store: all global variables as initialised at the top
of `library.c`. -/
def initState : LibState :=
  { table := fun _ => [], bst := .leaf, users := [], nextUserId := 1001 }

/-- All books of the store, in the traversal order used by every full-table
loop of the source (`for i in 0..HASH_TABLE_SIZE-1`, then along the chain). -/
def allBooks (s : LibState) : List Book :=
  (List.range HASH_TABLE_SIZE).flatMap s.table

-- --- BST functions ---

/-- `insert_into_bst` (via `create_tree_node`): descend comparing titles with
`strcmp`; `< 0` goes left, everything else — including equal titles — goes
right. -/
def bst_insert (title isbn : String) : TitleTree → TitleTree
  | .leaf => .node title isbn .leaf .leaf
  | .node t i l r =>
      if title < t then .node t i (bst_insert title isbn l) r
      else .node t i l (bst_insert title isbn r)

/-- The (title, isbn) references held by the BST, as a list (inorder). -/
def treeEntries : TitleTree → List (String × String)
  | .leaf => []
  | .node t i l r => treeEntries l ++ (t, i) :: treeEntries r

-- --- Hash table functions ---

/-- `search_book_by_isbn`: walk the chain of bucket `hash_function isbn` and
return the first record whose ISBN matches (`strcmp == 0`). -/
def search_book_by_isbn (isbn : String) (s : LibState) : Option Book :=
  (s.table (hash_function isbn)).find? (fun b => b.isbn = isbn)

/-- `insert_book`: scan the target bucket for a duplicate ISBN; if found the
new record is discarded (duplicate reported), otherwise the record is
prepended to the bucket chain and also inserted into the title BST. -/
def insert_book (nb : Book) (s : LibState) : LibState :=
  let h := hash_function nb.isbn
  if (s.table h).any (fun b => b.isbn = nb.isbn) then s
  else
    { s with
      table := fun i => if i = h then nb :: s.table h else s.table i,
      bst := bst_insert nb.title nb.isbn s.bst }

/-- The "Add New Book" menu action: the record is created with
`available = 1`, `borrow_count = 0` and handed to `insert_book`. -/
def add_book (isbn title author genre : String) (s : LibState) : LibState :=
  insert_book { isbn := isbn, title := title, author := author,
                genre := genre, available := true, borrow_count := 0 } s

/-- Outcome of `remove_book`, distinguished in the source by the message
printed. -/
inductive RemoveBookResult where
  | ok | notFound | bookBorrowed
  deriving DecidableEq, Repr

/-- Drop the first record of a chain whose ISBN matches (the unlink performed
by `remove_book` on the node found by its scan). -/
def removeFirstBook (isbn : String) : List Book → List Book
  | [] => []
  | b :: bs => if b.isbn = isbn then bs else b :: removeFirstBook isbn bs

/-- `remove_book`: find the first chain record with the ISBN; fail `notFound`
if absent, fail `bookBorrowed` if it is not available; otherwise unlink it.
The BST is NOT updated (the `// Remove from BST` comment in the source has no
code under it). -/
def remove_book (isbn : String) (s : LibState) : RemoveBookResult × LibState :=
  let h := hash_function isbn
  match (s.table h).find? (fun b => b.isbn = isbn) with
  | none => (.notFound, s)
  | some b =>
      if b.available = false then (.bookBorrowed, s)
      else
        (.ok, { s with
                table := fun i => if i = h then removeFirstBook isbn (s.table h)
                                  else s.table i })

-- --- User linked list functions ---

/-- `find_user`: linear scan of the user list, first record with the id. -/
def find_user (id : Int) (s : LibState) : Option User :=
  s.users.find? (fun u => u.id = id)

/-- `add_user`: a fresh user gets id `next_user_id` (which is then
incremented), an empty borrowed list, and is prepended to the list. -/
def add_user (name : String) (s : LibState) : LibState :=
  { s with
    users := { id := s.nextUserId, name := name, borrowed := [] } :: s.users,
    nextUserId := s.nextUserId + 1 }

/-- Outcome of `remove_user`. -/
inductive RemoveUserResult where
  | ok | notFound | hasBorrowedBooks
  deriving DecidableEq, Repr

/-- Drop the first user of the list whose id matches. -/
def removeFirstUser (id : Int) : List User → List User
  | [] => []
  | u :: us => if u.id = id then us else u :: removeFirstUser id us

/-- `remove_user`: first user with the id; `notFound` if absent,
`hasBorrowedBooks` if their borrowed list is nonempty, otherwise unlink. -/
def remove_user (id : Int) (s : LibState) : RemoveUserResult × LibState :=
  match s.users.find? (fun u => u.id = id) with
  | none => (.notFound, s)
  | some u =>
      if u.borrowed.length > 0 then (.hasBorrowedBooks, s)
      else (.ok, { s with users := removeFirstUser id s.users })

-- --- Issue & Return functions ---

/-- Outcome of `issue_book`, distinguished in the source by the message
printed before `return 0` / `return 1`. -/
inductive IssueResult where
  | ok | userNotFound | bookNotFound | bookUnavailable | borrowLimitReached
  deriving DecidableEq, Repr

/-- Apply `f` to the first user of the list whose id matches: the in-place
mutation `library.c` performs through the pointer returned by `find_user`. -/
def updateFirstUser (id : Int) (f : User → User) : List User → List User
  | [] => []
  | u :: us => if u.id = id then f u :: us else u :: updateFirstUser id f us

/-- Apply `f` to the first record of a chain whose ISBN matches: the in-place
mutation performed through the pointer returned by `search_book_by_isbn`. -/
def updateFirstBook (isbn : String) (f : Book → Book) : List Book → List Book
  | [] => []
  | b :: bs => if b.isbn = isbn then f b :: bs else b :: updateFirstBook isbn f bs

/-- Update the record `search_book_by_isbn isbn` points to: first matching
record of bucket `hash_function isbn`; all other buckets untouched. -/
def updateBook (isbn : String) (f : Book → Book) (s : LibState) : LibState :=
  let h := hash_function isbn
  { s with
    table := fun i => if i = h then updateFirstBook isbn f (s.table h)
                      else s.table i }

/-- `issue_book`: resolve the user, resolve the book, check availability,
check the borrow limit — in that order, each failure returning before any
mutation; on success append the ISBN to the user's borrowed list, clear the
book's `available` flag and increment its `borrow_count`. -/
def issue_book (user_id : Int) (isbn : String) (s : LibState) :
    IssueResult × LibState :=
  match find_user user_id s with
  | none => (.userNotFound, s)
  | some user =>
      match search_book_by_isbn isbn s with
      | none => (.bookNotFound, s)
      | some book =>
          if book.available = false then (.bookUnavailable, s)
          else if user.borrowed.length ≥ MAX_BORROWED then (.borrowLimitReached, s)
          else
            (.ok,
              updateBook isbn
                (fun b => { b with available := false,
                                   borrow_count := b.borrow_count + 1 })
                { s with
                  users := updateFirstUser user_id
                    (fun u => { u with borrowed := u.borrowed ++ [isbn] })
                    s.users })

/-- Outcome of `return_book`. -/
inductive ReturnResult where
  | ok | userNotFound | bookNotFound | notBorrowedByUser
  deriving DecidableEq, Repr

/-- Remove the first occurrence of `isbn` from a borrowed list, shifting the
later entries left: the `found_idx` search plus shift loop of `return_book`. -/
def removeFirstIsbn (isbn : String) : List String → List String
  | [] => []
  | x :: xs => if x = isbn then xs else x :: removeFirstIsbn isbn xs

/-- `return_book`: resolve the user, resolve the book, check that the user's
borrowed list holds the ISBN; on success delete its first occurrence
(shift-left) and set the book's `available` flag (`borrow_count` untouched). -/
def return_book (user_id : Int) (isbn : String) (s : LibState) :
    ReturnResult × LibState :=
  match find_user user_id s with
  | none => (.userNotFound, s)
  | some user =>
      match search_book_by_isbn isbn s with
      | none => (.bookNotFound, s)
      | some _book =>
          if isbn ∈ user.borrowed then
            (.ok,
              updateBook isbn (fun b => { b with available := true })
                { s with
                  users := updateFirstUser user_id
                    (fun u => { u with borrowed := removeFirstIsbn isbn u.borrowed })
                    s.users })
          else (.notBorrowedByUser, s)

-- --- The operation alphabet and reachability ---

/-- The mutating operations reachable from the menu: add/remove book,
add/remove user, issue, return. -/
inductive Op where
  | addBook (isbn title author genre : String)
  | removeBook (isbn : String)
  | addUser (name : String)
  | removeUser (id : Int)
  | issue (user_id : Int) (isbn : String)
  | ret (user_id : Int) (isbn : String)

/-- Apply one operation (discarding the reported outcome). -/
def applyOp (s : LibState) : Op → LibState
  | .addBook isbn title author genre => add_book isbn title author genre s
  | .removeBook isbn => (remove_book isbn s).2
  | .addUser name => add_user name s
  | .removeUser id => (remove_user id s).2
  | .issue uid isbn => (issue_book uid isbn s).2
  | .ret uid isbn => (return_book uid isbn s).2

/-- Run a sequence of operations from a state. -/
def runOps (ops : List Op) (s : LibState) : LibState := ops.foldl applyOp s

/-- Number of occurrences of an ISBN in one borrowed list. -/
def occCount (isbn : String) : List String → Nat
  | [] => 0
  | x :: xs => (if x = isbn then 1 else 0) + occCount isbn xs

/-- Total number of occurrences of an ISBN across all users' borrowed
lists. -/
def totalOcc (isbn : String) (users : List User) : Nat :=
  (users.map (fun u => occCount isbn u.borrowed)).sum

/-- Number of users whose borrowed list contains the ISBN. -/
def holders (isbn : String) (users : List User) : Nat :=
  (users.filter (fun u => isbn ∈ u.borrowed)).length

-- --- Report engine ---

/-- One inner pass of `list_most_borrowed_books`' bubble sort: `k` adjacent
comparisons from the front, swapping when the left `borrow_count` is strictly
smaller (descending order). -/
def bubblePass : List Book → Nat → List Book
  | l, 0 => l
  | [], _ + 1 => []
  | [a], _ + 1 => [a]
  | a :: b :: rest, k + 1 =>
      if a.borrow_count < b.borrow_count then b :: bubblePass (a :: rest) k
      else a :: bubblePass (b :: rest) k

/-- An unbounded pass over the whole list (proof helper: a bounded pass whose
bound covers the scanned prefix acts as this function on that prefix). -/
def fullPass : List Book → List Book
  | [] => []
  | [a] => [a]
  | a :: b :: rest =>
      if a.borrow_count < b.borrow_count then b :: fullPass (a :: rest)
      else a :: fullPass (b :: rest)

/-- The outer loop of the bubble sort: with `k` passes remaining, the C loop
(`i = n-1-k`) performs a pass of `k` comparisons (`j < n-i-1`). -/
def bubbleSortAux : Nat → List Book → List Book
  | 0, l => l
  | k + 1, l => bubbleSortAux k (bubblePass l (k + 1))

/-- The full bubble sort of `list_most_borrowed_books`: `n-1` passes of
shrinking bounds `n-1, n-2, ..., 1`. -/
def bubbleSort (l : List Book) : List Book := bubbleSortAux (l.length - 1) l

/-- `list_most_borrowed_books`: collect all books from the hash table in
bucket order (capped at `MAX_BOOKS`), bubble-sort descending by
`borrow_count`, and emit the first `min 10 n` entries that have
`borrow_count > 0`. -/
def list_most_borrowed_books (s : LibState) : List Book :=
  let books := (allBooks s).take MAX_BOOKS
  let sorted := bubbleSort books
  let limit := min 10 books.length
  (sorted.take limit).filter (fun b => b.borrow_count > 0)

-- --- File persistence ---

/-- Decimal digit character. -/
def digitChar : Nat → Char
  | 0 => '0' | 1 => '1' | 2 => '2' | 3 => '3' | 4 => '4'
  | 5 => '5' | 6 => '6' | 7 => '7' | 8 => '8' | _ => '9'

/-- Decimal representation of a natural number, as printed by `%d`. -/
def natDigits (n : Nat) : List Char :=
  if h : n < 10 then [digitChar n]
  else natDigits (n / 10) ++ [digitChar (n % 10)]

/-- `fprintf`'s `%d` rendering of a C `int`. -/
def intChars (z : Int) : List Char :=
  if z < 0 then '-' :: natDigits z.natAbs else natDigits z.toNat

/-- The digit-consuming loop of `atoi`, most-significant first. -/
def atoiDigits : List Char → Nat → Nat
  | [], acc => acc
  | c :: cs, acc => if c.isDigit then atoiDigits cs (acc * 10 + (c.toNat - 48)) else acc

/-- C `atoi`: skip leading whitespace, consume one optional sign, then
digits; an empty or signless input starts parsing directly. -/
def atoi (cs : List Char) : Int :=
  match cs.dropWhile (fun c => c.isWhitespace) with
  | [] => 0
  | c :: rest =>
      if c = '-' then - (atoiDigits rest 0 : Int)
      else if c = '+' then (atoiDigits rest 0 : Int)
      else (atoiDigits (c :: rest) 0 : Int)

/-- Join fields with the pipe delimiter, as the `fprintf` calls with
`"%s|%s|..."` format strings do. -/
def joinFields : List (List Char) → List Char
  | [] => []
  | [f] => f
  | f :: fs => f ++ '|' :: joinFields fs

/-- `strtok(line, "|")` tokenisation: the maximal nonempty runs of non-pipe
characters (runs of delimiters are skipped). -/
def splitTokens (l : List Char) : List (List Char) :=
  match l with
  | [] => []
  | c :: cs =>
      if c = '|' then splitTokens cs
      else (c :: cs.takeWhile (fun d => !(d == '|'))) ::
        splitTokens (cs.dropWhile (fun d => !(d == '|')))
termination_by l.length
decreasing_by
  all_goals simp only [List.length_cons]
  · omega
  · exact Nat.lt_succ_of_le (List.Sublist.length_le (List.dropWhile_sublist _))

/-- Split a file's character stream into the lines successive `fgets` calls
return, with the trailing newline already stripped (`strcspn` line). -/
def toLines (l : List Char) : List (List Char) :=
  match l with
  | [] => []
  | c :: rest =>
      ((c :: rest).takeWhile (fun d => !(d == '\n'))) ::
        toLines (((c :: rest).dropWhile (fun d => !(d == '\n'))).drop 1)
termination_by l.length
decreasing_by
  rcases hne : (c :: rest).dropWhile (fun d => !(d == '\n')) with _ | ⟨x, xs⟩
  · simp
  · have hsub := List.dropWhile_sublist (l := c :: rest) (fun d => !(d == '\n'))
    rw [hne] at hsub
    have hlen := List.Sublist.length_le hsub
    simp only [List.drop_succ_cons, List.drop_zero, List.length_cons] at *
    omega

/-- The record line `save_books_to_file` writes for one book:
`isbn|title|author|genre|available|borrow_count`. -/
def bookLine (b : Book) : List Char :=
  joinFields [b.isbn.data, b.title.data, b.author.data, b.genre.data,
    intChars (if b.available then 1 else 0), intChars b.borrow_count]

/-- `save_books_to_file`: one line per book, hash-table traversal order,
each line terminated by a newline; the file is fully overwritten. -/
def save_books_to_file (s : LibState) : List Char :=
  ((allBooks s).map (fun b => bookLine b ++ ['\n'])).flatten

/-- The per-line parser of `load_books_from_file`: six `strtok` fields
(extra fields are never requested, hence ignored); a line with fewer fields
is skipped.  `available` is `atoi`'s value used as a C truth value. -/
def parseBookLine (cs : List Char) : Option Book :=
  match splitTokens cs with
  | isbn :: title :: author :: genre :: avail :: cnt :: _ =>
      some { isbn := ⟨isbn⟩, title := ⟨title⟩, author := ⟨author⟩,
             genre := ⟨genre⟩, available := decide (¬ (atoi avail = 0)),
             borrow_count := atoi cnt }
  | _ => none

/-- The loop body of `load_books_from_file`: a parsed record is prepended to
its hash bucket (no duplicate check, unlike `insert_book`) and inserted into
the title BST; an unparsable line is skipped. -/
def load_book_record (st : LibState) (line : List Char) : LibState :=
  match parseBookLine line with
  | none => st
  | some nb =>
      { st with
        table := fun i => if i = hash_function nb.isbn
                          then nb :: st.table (hash_function nb.isbn)
                          else st.table i,
        bst := bst_insert nb.title nb.isbn st.bst }

/-- `load_books_from_file`: run the record loader over every line. -/
def load_books_from_file (cs : List Char) (s : LibState) : LibState :=
  (toLines cs).foldl load_book_record s

/-- The record line `save_users_to_file` writes for one user:
`id|name|borrowed_count|isbn_1|...|isbn_n`. -/
def userLine (u : User) : List Char :=
  joinFields ([intChars u.id, u.name.data, intChars (u.borrowed.length : Int)]
    ++ u.borrowed.map (fun x => x.data))

/-- `save_users_to_file`: one line per user, list order. -/
def save_users_to_file (s : LibState) : List Char :=
  (s.users.map (fun u => userLine u ++ ['\n'])).flatten

/-- The per-line parser of `load_users_from_file`: id, name,
`borrowed_count`, then exactly `borrowed_count` ISBN fields.  A line whose
ISBN fields run out is modelled as skipped (in the C source this case frees
the record and then keeps using it — undefined behaviour); a negative or
zero count reads no ISBN fields, like the C `for` loop. -/
def parseUserLine (cs : List Char) : Option User :=
  match splitTokens cs with
  | idT :: nameT :: cntT :: rest =>
      let k := (atoi cntT).toNat
      if rest.length < k then none
      else some { id := atoi idT, name := ⟨nameT⟩,
                  borrowed := (rest.take k).map (fun t => (⟨t⟩ : String)) }
  | _ => none

/-- `load_users_from_file`: first loop prepends each parsed user to a
temporary list while tracking the maximal id; the second loop prepends the
temporary list onto a fresh `user_list`, restoring file order;
`next_user_id` becomes the tracked maximum plus one. -/
def load_user_record (acc : List User × Int) (line : List Char) :
    List User × Int :=
  match parseUserLine line with
  | none => acc
  | some u => (u :: acc.1, if u.id > acc.2 then u.id else acc.2)

/-- `load_users_from_file`, continued: run the record loader, then rebuild
`user_list` by prepending the temporary list's entries. -/
def load_users_from_file (cs : List Char) (s : LibState) : LibState :=
  let pr := (toLines cs).foldl load_user_record (([] : List User), (1000 : Int))
  { s with users := pr.1.foldl (fun acc u => u :: acc) [],
           nextUserId := pr.2 + 1 }

/-- A string field the pipe-delimited persistence format can carry
faithfully: nonempty, and free of the delimiter and of newlines. -/
def cleanStr (x : String) : Prop :=
  ¬ (x.data = []) ∧ ∀ c ∈ x.data, ¬ (c = '|') ∧ ¬ (c = '\n')

instance (x : String) : Decidable (cleanStr x) := by
  unfold cleanStr
  infer_instance

/-- A book all of whose string fields are `cleanStr`. -/
def cleanBook (b : Book) : Prop :=
  cleanStr b.isbn ∧ cleanStr b.title ∧ cleanStr b.author ∧ cleanStr b.genre

instance (b : Book) : Decidable (cleanBook b) := by
  unfold cleanBook
  infer_instance

/-- A user whose name and borrowed ISBN entries are `cleanStr`. -/
def cleanUser (u : User) : Prop :=
  cleanStr u.name ∧ ∀ x ∈ u.borrowed, cleanStr x

instance (u : User) : Decidable (cleanUser u) := by
  unfold cleanUser
  infer_instance


-- --- Basic helper lemmas about the embedding ---

theorem hash_function_lt (isbn : String) : hash_function isbn < HASH_TABLE_SIZE :=
  Nat.mod_lt _ (by decide)


theorem mem_allBooks {b : Book} {s : LibState} :
    b ∈ allBooks s ↔ ∃ i, i < HASH_TABLE_SIZE ∧ b ∈ s.table i := by
  simp only [allBooks, List.mem_flatMap, List.mem_range]

theorem find?_decomp {α : Type} {p : α → Bool} {l : List α} {x : α}
    (h : l.find? p = some x) :
    ∃ l₁ l₂, l = l₁ ++ x :: l₂ ∧ ∀ y ∈ l₁, ¬ (p y = true) := by
  induction l with
  | nil => simp at h
  | cons a l ih =>
      by_cases hp : p a = true
      · rw [List.find?_cons_of_pos _ hp, Option.some_inj] at h
        subst h
        exact ⟨[], l, rfl, by simp⟩
      · rw [List.find?_cons_of_neg _ (by simpa using hp)] at h
        obtain ⟨l₁, l₂, rfl, hl₁⟩ := ih h
        refine ⟨a :: l₁, l₂, rfl, fun y hy => ?hy⟩
        rcases List.mem_cons.mp hy with rfl | hy
        · exact hp
        · exact hl₁ y hy

theorem updateFirstUser_decomp {l₁ l₂ : List User} {u : User} {id : Int}
    (f : User → User) (h₁ : ∀ y ∈ l₁, ¬ (y.id = id)) (hu : u.id = id) :
    updateFirstUser id f (l₁ ++ u :: l₂) = l₁ ++ f u :: l₂ := by
  induction l₁ with
  | nil => simp [updateFirstUser, hu]
  | cons a l₁ ih =>
      have ha : ¬ (a.id = id) := h₁ a (by simp)
      have ih' := ih (fun y hy => h₁ y (by simp [hy]))
      simp only [List.cons_append, updateFirstUser, if_neg ha, List.append_eq] at ih' ⊢
      simp [ih']

theorem updateFirstBook_decomp {l₁ l₂ : List Book} {b : Book} {isbn : String}
    (f : Book → Book) (h₁ : ∀ y ∈ l₁, ¬ (y.isbn = isbn)) (hb : b.isbn = isbn) :
    updateFirstBook isbn f (l₁ ++ b :: l₂) = l₁ ++ f b :: l₂ := by
  induction l₁ with
  | nil => simp [updateFirstBook, hb]
  | cons a l₁ ih =>
      have ha : ¬ (a.isbn = isbn) := h₁ a (by simp)
      have ih' := ih (fun y hy => h₁ y (by simp [hy]))
      simp only [List.cons_append, updateFirstBook, if_neg ha, List.append_eq] at ih' ⊢
      simp [ih']

theorem removeFirstBook_decomp {l₁ l₂ : List Book} {b : Book} {isbn : String}
    (h₁ : ∀ y ∈ l₁, ¬ (y.isbn = isbn)) (hb : b.isbn = isbn) :
    removeFirstBook isbn (l₁ ++ b :: l₂) = l₁ ++ l₂ := by
  induction l₁ with
  | nil => simp [removeFirstBook, hb]
  | cons a l₁ ih =>
      have ha : ¬ (a.isbn = isbn) := h₁ a (by simp)
      have ih' := ih (fun y hy => h₁ y (by simp [hy]))
      simp only [List.cons_append, removeFirstBook, if_neg ha, List.append_eq] at ih' ⊢
      simp [ih']

theorem removeFirstUser_decomp {l₁ l₂ : List User} {u : User} {id : Int}
    (h₁ : ∀ y ∈ l₁, ¬ (y.id = id)) (hu : u.id = id) :
    removeFirstUser id (l₁ ++ u :: l₂) = l₁ ++ l₂ := by
  induction l₁ with
  | nil => simp [removeFirstUser, hu]
  | cons a l₁ ih =>
      have ha : ¬ (a.id = id) := h₁ a (by simp)
      have ih' := ih (fun y hy => h₁ y (by simp [hy]))
      simp only [List.cons_append, removeFirstUser, if_neg ha, List.append_eq] at ih' ⊢
      simp [ih']

theorem removeFirstIsbn_decomp {l₁ l₂ : List String} {isbn : String}
    (h₁ : ∀ y ∈ l₁, ¬ (y = isbn)) :
    removeFirstIsbn isbn (l₁ ++ isbn :: l₂) = l₁ ++ l₂ := by
  induction l₁ with
  | nil => simp [removeFirstIsbn]
  | cons a l₁ ih =>
      have ha : ¬ (a = isbn) := h₁ a (by simp)
      have ih' := ih (fun y hy => h₁ y (by simp [hy]))
      simp only [List.cons_append, removeFirstIsbn, if_neg ha, List.append_eq] at ih' ⊢
      simp [ih']

theorem removeFirstBook_sublist (isbn : String) (l : List Book) :
    List.Sublist (removeFirstBook isbn l) l := by
  induction l with
  | nil => simp [removeFirstBook]
  | cons b bs ih =>
      simp only [removeFirstBook]
      by_cases hb : b.isbn = isbn
      · simpa [hb] using List.sublist_cons_self b bs
      · simpa [hb] using ih.cons₂ b

theorem removeFirstIsbn_sublist (isbn : String) (l : List String) :
    List.Sublist (removeFirstIsbn isbn l) l := by
  induction l with
  | nil => simp [removeFirstIsbn]
  | cons x xs ih =>
      simp only [removeFirstIsbn]
      by_cases hx : x = isbn
      · simpa [hx] using List.sublist_cons_self x xs
      · simpa [hx] using ih.cons₂ x

theorem removeFirstUser_sublist (id : Int) (l : List User) :
    List.Sublist (removeFirstUser id l) l := by
  induction l with
  | nil => simp [removeFirstUser]
  | cons u us ih =>
      simp only [removeFirstUser]
      by_cases hu : u.id = id
      · simpa [hu] using List.sublist_cons_self u us
      · simpa [hu] using ih.cons₂ u

theorem updateFirstBook_map_isbn {f : Book → Book}
    (hf : ∀ b, (f b).isbn = b.isbn) (isbn : String) (l : List Book) :
    (updateFirstBook isbn f l).map (fun b => b.isbn) = l.map (fun b => b.isbn) := by
  induction l with
  | nil => simp [updateFirstBook]
  | cons b bs ih =>
      simp only [updateFirstBook]
      by_cases hb : b.isbn = isbn
      · simp [hb, hf]
      · simp [hb, ih]

theorem mem_updateFirstBook {isbn : String} {f : Book → Book} {l : List Book}
    {b' : Book} (h : b' ∈ updateFirstBook isbn f l) :
    b' ∈ l ∨ ∃ b ∈ l, b' = f b := by
  induction l with
  | nil => simp [updateFirstBook] at h
  | cons b bs ih =>
      simp only [updateFirstBook] at h
      by_cases hb : b.isbn = isbn
      · rw [if_pos hb] at h
        rcases List.mem_cons.mp h with rfl | h
        · exact Or.inr ⟨b, by simp⟩
        · exact Or.inl (by simp [h])
      · rw [if_neg hb] at h
        rcases List.mem_cons.mp h with rfl | h
        · exact Or.inl (by simp)
        · rcases ih h with h | ⟨b₀, hb₀, rfl⟩
          · exact Or.inl (by simp [h])
          · exact Or.inr ⟨b₀, by simp [hb₀]⟩

theorem occCount_pos_of_mem {isbn : String} {l : List String} (h : isbn ∈ l) :
    0 < occCount isbn l := by
  induction l with
  | nil => simp at h
  | cons x xs ih =>
      simp only [occCount]
      rcases List.mem_cons.mp h with rfl | h
      · simp
      · have := ih h; omega

theorem occCount_eq_zero_of_not_mem {isbn : String} {l : List String}
    (h : ¬ (isbn ∈ l)) : occCount isbn l = 0 := by
  induction l with
  | nil => rfl
  | cons x xs ih =>
      simp only [occCount]
      have hx : ¬ (x = isbn) := fun e => h (by simp [e])
      have hxs : ¬ (isbn ∈ xs) := fun e => h (by simp [e])
      simp [hx, ih hxs]

theorem mem_of_occCount_pos {isbn : String} {l : List String}
    (h : 0 < occCount isbn l) : isbn ∈ l := by
  by_contra hc
  rw [occCount_eq_zero_of_not_mem hc] at h
  exact Nat.lt_irrefl 0 h

theorem occCount_append (isbn : String) (l₁ l₂ : List String) :
    occCount isbn (l₁ ++ l₂) = occCount isbn l₁ + occCount isbn l₂ := by
  induction l₁ with
  | nil => simp [occCount]
  | cons x xs ih =>
      simp only [List.cons_append, occCount, List.append_eq, ih]
      omega

theorem occCount_removeFirstIsbn_self {isbn : String} {l : List String}
    (h : isbn ∈ l) :
    occCount isbn (removeFirstIsbn isbn l) + 1 = occCount isbn l := by
  induction l with
  | nil => simp at h
  | cons x xs ih =>
      by_cases hx : x = isbn
      · subst hx
        simp [removeFirstIsbn, occCount]
        omega
      · have hxs : isbn ∈ xs := by
          rcases List.mem_cons.mp h with h' | h'
          · exact absurd h'.symm hx
          · exact h'
        simp only [removeFirstIsbn, if_neg hx, occCount]
        have := ih hxs
        omega

theorem occCount_removeFirstIsbn_ne {isbn x : String} (l : List String)
    (h : ¬ (x = isbn)) :
    occCount x (removeFirstIsbn isbn l) = occCount x l := by
  induction l with
  | nil => simp [removeFirstIsbn]
  | cons y ys ih =>
      simp only [removeFirstIsbn]
      by_cases hy : y = isbn
      · subst hy
        have : ¬ (y = x) := fun e => h e.symm
        simp [occCount, this]
      · simp only [if_neg hy, occCount, ih]

theorem totalOcc_append (isbn : String) (l₁ l₂ : List User) :
    totalOcc isbn (l₁ ++ l₂) = totalOcc isbn l₁ + totalOcc isbn l₂ := by
  simp [totalOcc]

theorem totalOcc_cons (isbn : String) (u : User) (l : List User) :
    totalOcc isbn (u :: l) = occCount isbn u.borrowed + totalOcc isbn l := by
  simp [totalOcc]

theorem totalOcc_pos_of_mem {isbn : String} {u : User} {users : List User}
    (hu : u ∈ users) (hm : isbn ∈ u.borrowed) : 0 < totalOcc isbn users := by
  induction users with
  | nil => simp at hu
  | cons v vs ih =>
      rw [totalOcc_cons]
      rcases List.mem_cons.mp hu with h | h
      · have : 0 < occCount isbn v.borrowed := by
          rw [← h]; exact occCount_pos_of_mem hm
        omega
      · have := ih h
        omega

theorem exists_holder_of_totalOcc_pos {isbn : String} {users : List User}
    (h : 0 < totalOcc isbn users) : ∃ u ∈ users, isbn ∈ u.borrowed := by
  induction users with
  | nil => simp [totalOcc] at h
  | cons v vs ih =>
      rw [totalOcc_cons] at h
      by_cases hv : 0 < occCount isbn v.borrowed
      · exact ⟨v, by simp, mem_of_occCount_pos hv⟩
      · have : 0 < totalOcc isbn vs := by omega
        obtain ⟨u, hu, hm⟩ := ih this
        exact ⟨u, by simp [hu], hm⟩

theorem mem_removeFirstBook_of_ne {isbn : String} {l : List Book} {b : Book}
    (hb : b ∈ l) (hne : ¬ (b.isbn = isbn)) : b ∈ removeFirstBook isbn l := by
  induction l with
  | nil => simp at hb
  | cons a as ih =>
      simp only [removeFirstBook]
      by_cases ha : a.isbn = isbn
      · rw [if_pos ha]
        rcases List.mem_cons.mp hb with rfl | hb
        · exact absurd ha hne
        · exact hb
      · rw [if_neg ha]
        rcases List.mem_cons.mp hb with rfl | hb
        · simp
        · simp [ih hb]

theorem exists_isbn_mem_updateFirstBook (isbn : String) {f : Book → Book}
    (hf : ∀ b, (f b).isbn = b.isbn) {l : List Book} {b : Book} (hb : b ∈ l) :
    ∃ b' ∈ updateFirstBook isbn f l, b'.isbn = b.isbn := by
  induction l with
  | nil => simp at hb
  | cons a as ih =>
      simp only [updateFirstBook]
      by_cases ha : a.isbn = isbn
      · rw [if_pos ha]
        rcases List.mem_cons.mp hb with rfl | hb
        · exact ⟨f b, by simp, hf b⟩
        · exact ⟨b, by simp [hb], rfl⟩
      · rw [if_neg ha]
        rcases List.mem_cons.mp hb with rfl | hb
        · exact ⟨b, by simp, rfl⟩
        · obtain ⟨b', hb', he⟩ := ih hb
          exact ⟨b', by simp [hb'], he⟩

theorem exists_bucket_update {t : Nat → List Book} {h : Nat}
    (hh : h < HASH_TABLE_SIZE) {c : List Book} {b : Book} :
    (∃ i, i < HASH_TABLE_SIZE ∧ b ∈ (if i = h then c else t i)) ↔
      b ∈ c ∨ ∃ i, i < HASH_TABLE_SIZE ∧ ¬ (i = h) ∧ b ∈ t i := by
  constructor
  · rintro ⟨i, hi, hb⟩
    by_cases hih : i = h
    · subst hih
      rw [if_pos rfl] at hb
      exact Or.inl hb
    · rw [if_neg hih] at hb
      exact Or.inr ⟨i, hi, hih, hb⟩
  · rintro (hb | ⟨i, hi, hih, hb⟩)
    · exact ⟨h, hh, by simpa using hb⟩
    · exact ⟨i, hi, by rw [if_neg hih]; exact hb⟩

-- --- The inductive invariant of reachable stores ---

/-- Inductive invariant maintained by every menu operation:
* `placed`: every chain record sits in the bucket its ISBN hashes to;
* `uniq`: no bucket chain holds two records with the same ISBN;
* `occ`: a stored book's ISBN occurs `0` times across all borrowed lists when
  it is available and exactly once when it is not;
* `held`: every borrowed ISBN denotes a stored book;
* `blen`: no borrowed list exceeds `MAX_BORROWED`. -/
structure StoreInv (s : LibState) : Prop where
  placed : ∀ i, ∀ b ∈ s.table i, hash_function b.isbn = i
  uniq : ∀ i, ((s.table i).map (fun b => b.isbn)).Nodup
  occ : ∀ b ∈ allBooks s, totalOcc b.isbn s.users = if b.available then 0 else 1
  held : ∀ u ∈ s.users, ∀ x ∈ u.borrowed, ∃ b ∈ allBooks s, b.isbn = x
  blen : ∀ u ∈ s.users, u.borrowed.length ≤ MAX_BORROWED

theorem inv_initState : StoreInv initState := by
  constructor <;> intro i <;> simp [initState, allBooks] at *


theorem inv_insert_book {s : LibState} {nb : Book} (inv : StoreInv s)
    (hav : nb.available = true) : StoreInv (insert_book nb s) := by
  unfold insert_book
  by_cases hdup : (s.table (hash_function nb.isbn)).any (fun b => decide (b.isbn = nb.isbn))
  · simpa [hdup] using inv
  · simp only [hdup, if_false, Bool.false_eq_true]
    have hh := hash_function_lt nb.isbn
    have hnodup : ∀ b ∈ s.table (hash_function nb.isbn), ¬ (b.isbn = nb.isbn) := by
      intro b hb he
      exact hdup (List.any_eq_true.mpr ⟨b, hb, by simp [he]⟩)
    -- no stored book at all carries nb's ISBN
    have hnostore : ∀ b ∈ allBooks s, ¬ (b.isbn = nb.isbn) := by
      intro b hb he
      obtain ⟨i, hi, hbi⟩ := mem_allBooks.mp hb
      have hpl := inv.placed i b hbi
      rw [he] at hpl
      rw [← hpl] at hbi
      exact hnodup b hbi he
    -- hence nobody borrowed it
    have hocc0 : totalOcc nb.isbn s.users = 0 := by
      by_contra hne
      obtain ⟨u, hu, hm⟩ := exists_holder_of_totalOcc_pos (Nat.pos_of_ne_zero hne)
      obtain ⟨b, hb, he⟩ := inv.held u hu nb.isbn hm
      exact hnostore b hb he
    constructor
    · intro i b hb
      simp only at hb
      by_cases hi : i = hash_function nb.isbn
      · subst hi
        rw [if_pos rfl] at hb
        rcases List.mem_cons.mp hb with rfl | hb
        · rfl
        · exact inv.placed _ b hb
      · rw [if_neg hi] at hb
        exact inv.placed i b hb
    · intro i
      simp only
      by_cases hi : i = hash_function nb.isbn
      · subst hi
        rw [if_pos rfl]
        refine List.Nodup.cons ?hm (inv.uniq _)
        simp only [List.mem_map, not_exists]
        rintro b ⟨hb, he⟩
        exact hnodup b hb he
      · rw [if_neg hi]
        exact inv.uniq i
    · intro b hb
      rw [mem_allBooks] at hb
      simp only at hb
      rcases (exists_bucket_update hh).mp hb with hb | ⟨i, hi, hne, hbi⟩
      · rcases List.mem_cons.mp hb with rfl | hb
        · show totalOcc b.isbn s.users = if b.available then 0 else 1
          rw [hav, if_pos rfl]
          exact hocc0
        · exact inv.occ b (mem_allBooks.mpr ⟨_, hh, hb⟩)
      · exact inv.occ b (mem_allBooks.mpr ⟨i, hi, hbi⟩)
    · intro u hu x hx
      obtain ⟨b, hb, he⟩ := inv.held u hu x hx
      obtain ⟨i, hi, hbi⟩ := mem_allBooks.mp hb
      refine ⟨b, mem_allBooks.mpr ⟨i, hi, ?hk⟩, he⟩
      simp only
      by_cases hie : i = hash_function nb.isbn
      · subst hie
        rw [if_pos rfl]
        exact List.mem_cons_of_mem nb hbi
      · rw [if_neg hie]
        exact hbi
    · exact inv.blen

theorem inv_remove_book {s : LibState} (isbn : String) (inv : StoreInv s) :
    StoreInv ((remove_book isbn s).2) := by
  unfold remove_book
  rcases hfind : (s.table (hash_function isbn)).find? (fun b => decide (b.isbn = isbn)) with _ | b
  · simpa [hfind] using inv
  · have hbisbn : b.isbn = isbn := by
      have := List.find?_some hfind
      simpa using this
    rcases hav : b.available with _ | _
    · simpa [hfind, hav] using inv
    · simp only [hfind, hav, Bool.true_eq_false, if_false]
      have hh := hash_function_lt isbn
      have hbs : b ∈ s.table (hash_function isbn) := List.mem_of_find?_eq_some hfind
      have hball : b ∈ allBooks s := mem_allBooks.mpr ⟨_, hh, hbs⟩
      -- the removed book has no borrower
      have hocc0 : totalOcc isbn s.users = 0 := by
        have := inv.occ b hball
        rw [hbisbn, hav] at this
        simpa using this
      have hsub := removeFirstBook_sublist isbn (s.table (hash_function isbn))
      constructor
      · intro i b' hb'
        simp only at hb'
        by_cases hi : i = hash_function isbn
        · subst hi
          rw [if_pos rfl] at hb'
          exact inv.placed _ b' (hsub.mem hb')
        · rw [if_neg hi] at hb'
          exact inv.placed i b' hb'
      · intro i
        simp only
        by_cases hi : i = hash_function isbn
        · subst hi
          rw [if_pos rfl]
          exact (inv.uniq _).sublist (hsub.map _)
        · rw [if_neg hi]
          exact inv.uniq i
      · intro b' hb'
        rw [mem_allBooks] at hb'
        simp only at hb'
        rcases (exists_bucket_update hh).mp hb' with hb' | ⟨i, hi, hne, hbi⟩
        · exact inv.occ b' (mem_allBooks.mpr ⟨_, hh, hsub.mem hb'⟩)
        · exact inv.occ b' (mem_allBooks.mpr ⟨i, hi, hbi⟩)
      · intro u hu x hx
        have hu2 : u ∈ s.users := hu
        obtain ⟨bw, hbw, he⟩ := inv.held u hu2 x hx
        have hxne : ¬ (x = isbn) := by
          intro he'
          subst he'
          have := totalOcc_pos_of_mem hu2 hx
          omega
        obtain ⟨i, hi, hbi⟩ := mem_allBooks.mp hbw
        refine ⟨bw, mem_allBooks.mpr ⟨i, hi, ?hk⟩, he⟩
        simp only
        by_cases hie : i = hash_function isbn
        · subst hie
          rw [if_pos rfl]
          exact mem_removeFirstBook_of_ne hbi (by rw [he]; exact hxne)
        · rw [if_neg hie]
          exact hbi
      · intro u hu
        exact inv.blen u hu

theorem inv_add_user {s : LibState} (name : String) (inv : StoreInv s) :
    StoreInv (add_user name s) := by
  unfold add_user
  constructor
  · exact inv.placed
  · exact inv.uniq
  · intro b hb
    have hb2 : b ∈ allBooks s := hb
    have := inv.occ b hb2
    show totalOcc b.isbn ({ id := s.nextUserId, name := name, borrowed := [] } :: s.users) = _
    rw [totalOcc_cons]
    simpa [occCount] using this
  · intro u hu x hx
    rcases List.mem_cons.mp hu with rfl | hu
    · simp at hx
    · exact inv.held u hu x hx
  · intro u hu
    rcases List.mem_cons.mp hu with rfl | hu
    · simp [MAX_BORROWED]
    · exact inv.blen u hu

theorem inv_remove_user {s : LibState} (id : Int) (inv : StoreInv s) :
    StoreInv ((remove_user id s).2) := by
  unfold remove_user
  rcases hfind : s.users.find? (fun u => decide (u.id = id)) with _ | u
  · simpa [hfind] using inv
  · by_cases hlen : u.borrowed.length > 0
    · simpa [hfind, hlen] using inv
    · simp only [hfind, hlen, if_false]
      have hempty : u.borrowed = [] :=
        List.eq_nil_of_length_eq_zero (by omega)
      obtain ⟨l₁, l₂, hsplit, hl₁⟩ := find?_decomp hfind
      have husers : removeFirstUser id s.users = l₁ ++ l₂ := by
        rw [hsplit]
        refine removeFirstUser_decomp ?h₁ ?h₂
        · intro y hy
          have := hl₁ y hy
          simpa using this
        · simpa using List.find?_some hfind
      have hsub := removeFirstUser_sublist id s.users
      constructor
      · exact inv.placed
      · exact inv.uniq
      · intro b hb
        have hb2 : b ∈ allBooks s := hb
        have hold := inv.occ b hb2
        show totalOcc b.isbn (removeFirstUser id s.users) = _
        rw [husers, totalOcc_append]
        rw [hsplit, totalOcc_append, totalOcc_cons, hempty] at hold
        simpa [occCount] using hold
      · intro v hv x hx
        have hv2 : v ∈ s.users := hsub.mem hv
        exact inv.held v hv2 x hx
      · intro v hv
        exact inv.blen v (hsub.mem hv)

theorem exists_isbn_in_updated_table {s : LibState} (isbn : String)
    {f : Book → Book} (hf : ∀ b, (f b).isbn = b.isbn) {x : String}
    (hx : ∃ b ∈ allBooks s, b.isbn = x) :
    ∃ b, (∃ i, i < HASH_TABLE_SIZE ∧
      b ∈ (if i = hash_function isbn
           then updateFirstBook isbn f (s.table (hash_function isbn))
           else s.table i)) ∧ b.isbn = x := by
  obtain ⟨bw, hbw, he⟩ := hx
  obtain ⟨i, hi, hbi⟩ := mem_allBooks.mp hbw
  by_cases hie : i = hash_function isbn
  · subst hie
    obtain ⟨b', hb', he'⟩ := exists_isbn_mem_updateFirstBook isbn hf hbi
    exact ⟨b', ⟨hash_function isbn, hi, by rw [if_pos rfl]; exact hb'⟩, by rw [he', he]⟩
  · exact ⟨bw, ⟨i, hi, by rw [if_neg hie]; exact hbi⟩, he⟩

theorem inv_issue_book {s : LibState} (uid : Int) (isbn : String)
    (inv : StoreInv s) : StoreInv ((issue_book uid isbn s).2) := by
  unfold issue_book
  rcases hfu : find_user uid s with _ | user
  · simpa [hfu] using inv
  rcases hfb : search_book_by_isbn isbn s with _ | book
  · simpa [hfu, hfb] using inv
  rcases hav : book.available with _ | _
  · simpa [hfu, hfb, hav] using inv
  by_cases hlim : user.borrowed.length ≥ MAX_BORROWED
  · simpa [hfu, hfb, hav, hlim] using inv
  simp only [hfu, hfb, hav, hlim, Bool.true_eq_false, if_false, updateBook]
  have hh := hash_function_lt isbn
  -- resolve the two finds into decompositions
  unfold search_book_by_isbn at hfb
  unfold find_user at hfu
  have hbisbn : book.isbn = isbn := by simpa using List.find?_some hfb
  have huid : user.id = uid := by simpa using List.find?_some hfu
  have hbs : book ∈ s.table (hash_function isbn) := List.mem_of_find?_eq_some hfb
  have hball : book ∈ allBooks s := mem_allBooks.mpr ⟨_, hh, hbs⟩
  obtain ⟨c₁, c₂, hchain, hc₁0⟩ := find?_decomp hfb
  have hc₁ : ∀ y ∈ c₁, ¬ (y.isbn = isbn) := fun y hy => by simpa using hc₁0 y hy
  obtain ⟨us₁, us₂, husers, hus₁0⟩ := find?_decomp hfu
  have hus₁ : ∀ y ∈ us₁, ¬ (y.id = uid) := fun y hy => by simpa using hus₁0 y hy
  have hU : updateFirstUser uid
      (fun u => { u with borrowed := u.borrowed ++ [isbn] }) s.users
      = us₁ ++ { user with borrowed := user.borrowed ++ [isbn] } :: us₂ := by
    rw [husers]
    exact updateFirstUser_decomp _ hus₁ huid
  have hchain2 : updateFirstBook isbn
      (fun b => { b with available := false, borrow_count := b.borrow_count + 1 })
      (s.table (hash_function isbn))
      = c₁ ++ ({ book with available := false, borrow_count := book.borrow_count + 1 }) :: c₂ := by
    rw [hchain]
    exact updateFirstBook_decomp _ hc₁ hbisbn
  -- nobody holds the issued ISBN before the call
  have hocc0 : totalOcc isbn s.users = 0 := by
    have := inv.occ book hball
    rw [hbisbn, hav] at this
    simpa using this
  have hparts : totalOcc isbn us₁ = 0 ∧ occCount isbn user.borrowed = 0 ∧
      totalOcc isbn us₂ = 0 := by
    rw [husers, totalOcc_append, totalOcc_cons] at hocc0
    omega
  -- occurrence counts after the append
  have htotU : ∀ x, totalOcc x (us₁ ++ { user with borrowed := user.borrowed ++ [isbn] } :: us₂)
      = totalOcc x (us₁ ++ user :: us₂) + (if isbn = x then 1 else 0) := by
    intro x
    rw [totalOcc_append, totalOcc_cons, totalOcc_append, totalOcc_cons]
    show totalOcc x us₁ + (occCount x (user.borrowed ++ [isbn]) + totalOcc x us₂) = _
    rw [occCount_append]
    simp only [occCount]
    omega
  -- distinct ISBNs inside the target bucket
  have huq := inv.uniq (hash_function isbn)
  rw [hchain] at huq
  have hc₂ : ∀ y ∈ c₂, ¬ (y.isbn = isbn) := by
    have hsub : List.Sublist (book.isbn :: c₂.map (fun b => b.isbn))
        ((c₁ ++ book :: c₂).map (fun b => b.isbn)) := by
      rw [List.map_append]
      exact List.sublist_append_right _ _
    have hnd := huq.sublist hsub
    intro y hy he
    rcases List.nodup_cons.mp hnd with ⟨hnm, _⟩
    exact hnm (List.mem_map.mpr ⟨y, hy, by rw [he, hbisbn]⟩)
  constructor
  · intro i b hb
    simp only at hb
    by_cases hi : i = hash_function isbn
    · subst hi
      rw [if_pos rfl, hchain2] at hb
      rcases List.mem_append.mp hb with hb | hb
      · exact inv.placed _ b (by rw [hchain]; exact List.mem_append_left _ hb)
      · rcases List.mem_cons.mp hb with rfl | hb
        · show hash_function book.isbn = _
          exact inv.placed _ book hbs
        · exact inv.placed _ b
            (by rw [hchain]; exact List.mem_append_right _ (List.mem_cons_of_mem _ hb))
    · rw [if_neg hi] at hb
      exact inv.placed i b hb
  · intro i
    simp only
    by_cases hi : i = hash_function isbn
    · subst hi
      rw [if_pos rfl, updateFirstBook_map_isbn (f := fun b =>
        { b with available := false, borrow_count := b.borrow_count + 1 }) (fun b => rfl)]
      exact inv.uniq _
    · rw [if_neg hi]
      exact inv.uniq i
  · intro b hb
    rw [mem_allBooks] at hb
    simp only at hb
    rw [hU, htotU, ← husers]
    rcases (exists_bucket_update hh).mp hb with hb | ⟨i, hi, hne, hbi⟩
    · rw [hchain2] at hb
      rcases List.mem_append.mp hb with hb | hb
      · have hne : ¬ (b.isbn = isbn) := hc₁ b hb
        have hmem : b ∈ allBooks s := mem_allBooks.mpr
          ⟨_, hh, by rw [hchain]; exact List.mem_append_left _ hb⟩
        rw [if_neg (fun e => hne e.symm)]
        simpa using inv.occ b hmem
      · rcases List.mem_cons.mp hb with rfl | hb
        · simp [hbisbn, hocc0]
        · have hne : ¬ (b.isbn = isbn) := hc₂ b hb
          have hmem : b ∈ allBooks s := mem_allBooks.mpr
            ⟨_, hh, by rw [hchain]; exact List.mem_append_right _ (List.mem_cons_of_mem _ hb)⟩
          rw [if_neg (fun e => hne e.symm)]
          simpa using inv.occ b hmem
    · have hib : hash_function b.isbn = i := inv.placed i b hbi
      have hne : ¬ (b.isbn = isbn) := by
        intro he
        rw [he] at hib
        exact hne (hib ▸ rfl)
      rw [if_neg (fun e => hne e.symm)]
      simpa using inv.occ b (mem_allBooks.mpr ⟨i, hi, hbi⟩)
  · intro u hu x hx
    have hu2 : u ∈ us₁ ++ { user with borrowed := user.borrowed ++ [isbn] } :: us₂ := by
      rw [← hU]; exact hu
    have htrans := fun hw =>
      exists_isbn_in_updated_table (s := s) isbn (f := fun b =>
        { b with available := false, borrow_count := b.borrow_count + 1 })
        (fun b => rfl) (x := x) hw
    rcases List.mem_append.mp hu2 with hmem | hmem
    · have : u ∈ s.users := by rw [husers]; exact List.mem_append_left _ hmem
      obtain ⟨b', hb', he'⟩ := htrans (inv.held u this x hx)
      exact ⟨b', mem_allBooks.mpr (by simpa using hb'), he'⟩
    · rcases List.mem_cons.mp hmem with rfl | hmem
      · rcases List.mem_append.mp hx with hx | hx
        · have : user ∈ s.users := by
            rw [husers]; exact List.mem_append_right _ (List.mem_cons_self _ _)
          obtain ⟨b', hb', he'⟩ := htrans (inv.held user this x hx)
          exact ⟨b', mem_allBooks.mpr (by simpa using hb'), he'⟩
        · have hxisbn : x = isbn := by simpa using hx
          subst hxisbn
          refine ⟨({ book with available := false, borrow_count := book.borrow_count + 1 }),
                  mem_allBooks.mpr ⟨hash_function x, hh, ?hin⟩, by simpa using hbisbn⟩
          simp only [if_pos rfl]
          rw [hchain2]
          exact List.mem_append_right _ (List.mem_cons_self _ _)
      · have : u ∈ s.users := by
          rw [husers]; exact List.mem_append_right _ (List.mem_cons_of_mem _ hmem)
        obtain ⟨b', hb', he'⟩ := htrans (inv.held u this x hx)
        exact ⟨b', mem_allBooks.mpr (by simpa using hb'), he'⟩
  · intro u hu
    have hu2 : u ∈ us₁ ++ { user with borrowed := user.borrowed ++ [isbn] } :: us₂ := by
      rw [← hU]; exact hu
    rcases List.mem_append.mp hu2 with hmem | hmem
    · exact inv.blen u (by rw [husers]; exact List.mem_append_left _ hmem)
    · rcases List.mem_cons.mp hmem with rfl | hmem
      · show (user.borrowed ++ [isbn]).length ≤ MAX_BORROWED
        rw [List.length_append]
        simp only [List.length_singleton]
        simp only [ge_iff_le, not_le] at hlim
        omega
      · exact inv.blen u
          (by rw [husers]; exact List.mem_append_right _ (List.mem_cons_of_mem _ hmem))

theorem inv_return_book {s : LibState} (uid : Int) (isbn : String)
    (inv : StoreInv s) : StoreInv ((return_book uid isbn s).2) := by
  unfold return_book
  rcases hfu : find_user uid s with _ | user
  · simpa [hfu] using inv
  rcases hfb : search_book_by_isbn isbn s with _ | book
  · simpa [hfu, hfb] using inv
  by_cases hmem : isbn ∈ user.borrowed
  case neg => simpa [hfu, hfb, hmem] using inv
  simp only [hfu, hfb, hmem, if_true, updateBook]
  have hh := hash_function_lt isbn
  unfold search_book_by_isbn at hfb
  unfold find_user at hfu
  have hbisbn : book.isbn = isbn := by simpa using List.find?_some hfb
  have huid : user.id = uid := by simpa using List.find?_some hfu
  have hbs : book ∈ s.table (hash_function isbn) := List.mem_of_find?_eq_some hfb
  have hball : book ∈ allBooks s := mem_allBooks.mpr ⟨_, hh, hbs⟩
  have husermem : user ∈ s.users := List.mem_of_find?_eq_some hfu
  obtain ⟨c₁, c₂, hchain, hc₁0⟩ := find?_decomp hfb
  have hc₁ : ∀ y ∈ c₁, ¬ (y.isbn = isbn) := fun y hy => by simpa using hc₁0 y hy
  obtain ⟨us₁, us₂, husers, hus₁0⟩ := find?_decomp hfu
  have hus₁ : ∀ y ∈ us₁, ¬ (y.id = uid) := fun y hy => by simpa using hus₁0 y hy
  have hU : updateFirstUser uid
      (fun u => { u with borrowed := removeFirstIsbn isbn u.borrowed }) s.users
      = us₁ ++ ({ user with borrowed := removeFirstIsbn isbn user.borrowed }) :: us₂ := by
    rw [husers]
    exact updateFirstUser_decomp _ hus₁ huid
  have hchain2 : updateFirstBook isbn (fun b => { b with available := true })
      (s.table (hash_function isbn))
      = c₁ ++ ({ book with available := true }) :: c₂ := by
    rw [hchain]
    exact updateFirstBook_decomp _ hc₁ hbisbn
  -- the book is held exactly once, so it is marked unavailable
  have hpos : 0 < totalOcc isbn s.users := totalOcc_pos_of_mem husermem hmem
  have hoccbook := inv.occ book hball
  rw [hbisbn] at hoccbook
  have hav : book.available = false := by
    rcases h : book.available with _ | _
    · rfl
    · rw [h, if_pos rfl] at hoccbook
      omega
  have hocc1 : totalOcc isbn s.users = 1 := by
    rw [hav] at hoccbook
    simpa using hoccbook
  have hcu : 0 < occCount isbn user.borrowed := occCount_pos_of_mem hmem
  have hparts : totalOcc isbn us₁ = 0 ∧ occCount isbn user.borrowed = 1 ∧
      totalOcc isbn us₂ = 0 := by
    rw [husers, totalOcc_append, totalOcc_cons] at hocc1
    omega
  have hremove : occCount isbn (removeFirstIsbn isbn user.borrowed) = 0 := by
    have := occCount_removeFirstIsbn_self hmem
    omega
  -- occurrence counts after the removal
  have htotU : ∀ x, totalOcc x
      (us₁ ++ ({ user with borrowed := removeFirstIsbn isbn user.borrowed }) :: us₂)
      = if x = isbn then 0 else totalOcc x (us₁ ++ user :: us₂) := by
    intro x
    by_cases hx : x = isbn
    · subst hx
      rw [if_pos rfl, totalOcc_append, totalOcc_cons]
      show totalOcc x us₁ + (occCount x (removeFirstIsbn x user.borrowed) + totalOcc x us₂) = 0
      omega
    · rw [if_neg hx, totalOcc_append, totalOcc_cons, totalOcc_append, totalOcc_cons]
      show totalOcc x us₁ + (occCount x (removeFirstIsbn isbn user.borrowed) + totalOcc x us₂) = _
      rw [occCount_removeFirstIsbn_ne _ hx]
  have huq := inv.uniq (hash_function isbn)
  rw [hchain] at huq
  have hc₂ : ∀ y ∈ c₂, ¬ (y.isbn = isbn) := by
    have hsub : List.Sublist (book.isbn :: c₂.map (fun b => b.isbn))
        ((c₁ ++ book :: c₂).map (fun b => b.isbn)) := by
      rw [List.map_append]
      exact List.sublist_append_right _ _
    have hnd := huq.sublist hsub
    intro y hy he
    rcases List.nodup_cons.mp hnd with ⟨hnm, _⟩
    exact hnm (List.mem_map.mpr ⟨y, hy, by rw [he, hbisbn]⟩)
  constructor
  · intro i b hb
    simp only at hb
    by_cases hi : i = hash_function isbn
    · subst hi
      rw [if_pos rfl, hchain2] at hb
      rcases List.mem_append.mp hb with hb | hb
      · exact inv.placed _ b (by rw [hchain]; exact List.mem_append_left _ hb)
      · rcases List.mem_cons.mp hb with rfl | hb
        · show hash_function book.isbn = _
          exact inv.placed _ book hbs
        · exact inv.placed _ b
            (by rw [hchain]; exact List.mem_append_right _ (List.mem_cons_of_mem _ hb))
    · rw [if_neg hi] at hb
      exact inv.placed i b hb
  · intro i
    simp only
    by_cases hi : i = hash_function isbn
    · subst hi
      rw [if_pos rfl, updateFirstBook_map_isbn (f := fun b =>
        { b with available := true }) (fun b => rfl)]
      exact inv.uniq _
    · rw [if_neg hi]
      exact inv.uniq i
  · intro b hb
    rw [mem_allBooks] at hb
    simp only at hb
    rw [hU, htotU]
    rcases (exists_bucket_update hh).mp hb with hb | ⟨i, hi, hne, hbi⟩
    · rw [hchain2] at hb
      rcases List.mem_append.mp hb with hb | hb
      · have hneb : ¬ (b.isbn = isbn) := hc₁ b hb
        have hmemb : b ∈ allBooks s := mem_allBooks.mpr
          ⟨_, hh, by rw [hchain]; exact List.mem_append_left _ hb⟩
        rw [if_neg hneb, ← husers]
        exact inv.occ b hmemb
      · rcases List.mem_cons.mp hb with rfl | hb
        · simp [hbisbn]
        · have hneb : ¬ (b.isbn = isbn) := hc₂ b hb
          have hmemb : b ∈ allBooks s := mem_allBooks.mpr
            ⟨_, hh, by rw [hchain]; exact List.mem_append_right _ (List.mem_cons_of_mem _ hb)⟩
          rw [if_neg hneb, ← husers]
          exact inv.occ b hmemb
    · have hib : hash_function b.isbn = i := inv.placed i b hbi
      have hneb : ¬ (b.isbn = isbn) := by
        intro he
        rw [he] at hib
        exact hne (hib ▸ rfl)
      rw [if_neg hneb, ← husers]
      exact inv.occ b (mem_allBooks.mpr ⟨i, hi, hbi⟩)
  · intro u hu x hx
    have hu2 : u ∈ us₁ ++ ({ user with borrowed := removeFirstIsbn isbn user.borrowed }) :: us₂ := by
      rw [← hU]; exact hu
    have htrans := fun hw =>
      exists_isbn_in_updated_table (s := s) isbn (f := fun b =>
        { b with available := true }) (fun b => rfl) (x := x) hw
    rcases List.mem_append.mp hu2 with hmem2 | hmem2
    · have : u ∈ s.users := by rw [husers]; exact List.mem_append_left _ hmem2
      obtain ⟨b', hb', he'⟩ := htrans (inv.held u this x hx)
      exact ⟨b', mem_allBooks.mpr (by simpa using hb'), he'⟩
    · rcases List.mem_cons.mp hmem2 with rfl | hmem2
      · have hxold : x ∈ user.borrowed := (removeFirstIsbn_sublist isbn _).mem hx
        obtain ⟨b', hb', he'⟩ := htrans (inv.held user husermem x hxold)
        exact ⟨b', mem_allBooks.mpr (by simpa using hb'), he'⟩
      · have : u ∈ s.users := by
          rw [husers]; exact List.mem_append_right _ (List.mem_cons_of_mem _ hmem2)
        obtain ⟨b', hb', he'⟩ := htrans (inv.held u this x hx)
        exact ⟨b', mem_allBooks.mpr (by simpa using hb'), he'⟩
  · intro u hu
    have hu2 : u ∈ us₁ ++ ({ user with borrowed := removeFirstIsbn isbn user.borrowed }) :: us₂ := by
      rw [← hU]; exact hu
    rcases List.mem_append.mp hu2 with hmem2 | hmem2
    · exact inv.blen u (by rw [husers]; exact List.mem_append_left _ hmem2)
    · rcases List.mem_cons.mp hmem2 with rfl | hmem2
      · show (removeFirstIsbn isbn user.borrowed).length ≤ MAX_BORROWED
        have h1 := (removeFirstIsbn_sublist isbn user.borrowed).length_le
        have h2 := inv.blen user husermem
        omega
      · exact inv.blen u
          (by rw [husers]; exact List.mem_append_right _ (List.mem_cons_of_mem _ hmem2))

theorem inv_applyOp {s : LibState} (inv : StoreInv s) (op : Op) :
    StoreInv (applyOp s op) := by
  cases op with
  | addBook isbn title author genre => exact inv_insert_book inv rfl
  | removeBook isbn => exact inv_remove_book isbn inv
  | addUser name => exact inv_add_user name inv
  | removeUser id => exact inv_remove_user id inv
  | issue uid isbn => exact inv_issue_book uid isbn inv
  | ret uid isbn => exact inv_return_book uid isbn inv

theorem inv_runOps (ops : List Op) {s : LibState} (inv : StoreInv s) :
    StoreInv (runOps ops s) := by
  induction ops generalizing s with
  | nil => exact inv
  | cons op ops ih => exact ih (inv_applyOp inv op)

theorem inv_reachable (ops : List Op) : StoreInv (runOps ops initState) :=
  inv_runOps ops inv_initState

theorem holders_of_totalOcc_zero {isbn : String} {users : List User}
    (h : totalOcc isbn users = 0) : holders isbn users = 0 := by
  induction users with
  | nil => rfl
  | cons u us ih =>
      rw [totalOcc_cons] at h
      have hni : ¬ (isbn ∈ u.borrowed) := by
        intro hm
        have := occCount_pos_of_mem hm
        omega
      simp only [holders, List.filter_cons]
      rw [if_neg (by simpa using hni)]
      exact ih (by omega)

theorem holders_of_totalOcc_one {isbn : String} {users : List User}
    (h : totalOcc isbn users = 1) : holders isbn users = 1 := by
  induction users with
  | nil => simp [totalOcc] at h
  | cons u us ih =>
      rw [totalOcc_cons] at h
      by_cases hm : isbn ∈ u.borrowed
      · have h1 : 0 < occCount isbn u.borrowed := occCount_pos_of_mem hm
        have h0 : totalOcc isbn us = 0 := by omega
        simp only [holders, List.filter_cons]
        rw [if_pos (by simpa using hm)]
        have hz := holders_of_totalOcc_zero h0
        simp only [holders] at hz
        simp only [List.length_cons]
        omega
      · have h0 : occCount isbn u.borrowed = 0 := occCount_eq_zero_of_not_mem hm
        simp only [holders, List.filter_cons]
        rw [if_neg (by simpa using hm)]
        exact ih (by omega)

-- --- Lemmas for locating updated records ---

theorem find?_append_cons {α : Type} {p : α → Bool} {l₁ l₂ : List α} {x : α}
    (h₁ : ∀ y ∈ l₁, ¬ (p y = true)) (hx : p x = true) :
    (l₁ ++ x :: l₂).find? p = some x := by
  induction l₁ with
  | nil => simp [List.find?_cons_of_pos _ hx]
  | cons a l₁ ih =>
      rw [List.cons_append, List.find?_cons_of_neg _ (h₁ a (by simp))]
      exact ih (fun y hy => h₁ y (by simp [hy]))

theorem mem_first_decomp {x : String} {l : List String} (h : x ∈ l) :
    ∃ l₁ l₂, l = l₁ ++ x :: l₂ ∧ ¬ (x ∈ l₁) := by
  induction l with
  | nil => simp at h
  | cons a as ih =>
      by_cases ha : a = x
      · subst ha
        exact ⟨[], as, rfl, by simp⟩
      · have hxs : x ∈ as := by
          rcases List.mem_cons.mp h with h' | h'
          · exact absurd h'.symm ha
          · exact h'
        obtain ⟨l₁, l₂, rfl, hnx⟩ := ih hxs
        refine ⟨a :: l₁, l₂, rfl, ?hq⟩
        simp only [List.mem_cons, not_or]
        exact ⟨fun e => ha e.symm, hnx⟩

-- --- Claim theorems ---

/-- **C2**: for every user id, ISBN and store, `issue` performs its checks in
the order UserNotFound, BookNotFound, BookUnavailable, BorrowLimitReached
(each failure kind occurs exactly when its condition is the first to hold),
and any failing call leaves the store exactly as it was. -/
theorem issue_check_order_and_no_side_effects (uid : Int) (isbn : String)
    (s : LibState) :
    ((issue_book uid isbn s).1 = .userNotFound ↔ find_user uid s = none) ∧
    ((issue_book uid isbn s).1 = .bookNotFound ↔
      (∃ u, find_user uid s = some u) ∧ search_book_by_isbn isbn s = none) ∧
    ((issue_book uid isbn s).1 = .bookUnavailable ↔
      ∃ u b, find_user uid s = some u ∧ search_book_by_isbn isbn s = some b ∧
        b.available = false) ∧
    ((issue_book uid isbn s).1 = .borrowLimitReached ↔
      ∃ u b, find_user uid s = some u ∧ search_book_by_isbn isbn s = some b ∧
        b.available = true ∧ u.borrowed.length ≥ MAX_BORROWED) ∧
    (¬ ((issue_book uid isbn s).1 = .ok) → (issue_book uid isbn s).2 = s) := by
  rcases hfu : find_user uid s with _ | u
  · simp [issue_book, hfu]
  rcases hfb : search_book_by_isbn isbn s with _ | b
  · simp [issue_book, hfu, hfb]
  rcases hav : b.available with _ | _
  · simp [issue_book, hfu, hfb, hav]
  by_cases hlim : u.borrowed.length ≥ MAX_BORROWED
  · simp [issue_book, hfu, hfb, hav, hlim]
  · simp [issue_book, hfu, hfb, hav, hlim]

/-- **C2 witness**: the characterisation evaluated on the empty store. -/
theorem issue_check_order_witness :
    ((issue_book 1001 "111" initState).1 = .userNotFound ↔
      find_user 1001 initState = none) ∧
    ((issue_book 1001 "111" initState).1 = .bookNotFound ↔
      (∃ u, find_user 1001 initState = some u) ∧
        search_book_by_isbn "111" initState = none) ∧
    ((issue_book 1001 "111" initState).1 = .bookUnavailable ↔
      ∃ u b, find_user 1001 initState = some u ∧
        search_book_by_isbn "111" initState = some b ∧ b.available = false) ∧
    ((issue_book 1001 "111" initState).1 = .borrowLimitReached ↔
      ∃ u b, find_user 1001 initState = some u ∧
        search_book_by_isbn "111" initState = some b ∧
        b.available = true ∧ u.borrowed.length ≥ MAX_BORROWED) ∧
    (¬ ((issue_book 1001 "111" initState).1 = .ok) →
      (issue_book 1001 "111" initState).2 = initState) :=
  issue_check_order_and_no_side_effects 1001 "111" initState

/-- **C1**: in every state reachable from the empty store by any sequence of
add/remove book, add/remove user, issue and return operations, a stored
book's `available` flag is `false` iff exactly one user's borrowed list
contains the book's ISBN, and `true` iff no user's borrowed list contains
it. -/
theorem availability_loan_invariant (ops : List Op) (b : Book)
    (hb : b ∈ allBooks (runOps ops initState)) :
    (b.available = false ↔ holders b.isbn (runOps ops initState).users = 1) ∧
    (b.available = true ↔ holders b.isbn (runOps ops initState).users = 0) := by
  have inv := inv_reachable ops
  have hocc := inv.occ b hb
  rcases hav : b.available with _ | _
  · rw [hav] at hocc
    simp only [Bool.false_eq_true, if_false] at hocc
    have h1 := holders_of_totalOcc_one hocc
    simp [hav, h1]
  · rw [hav, if_pos rfl] at hocc
    have h0 := holders_of_totalOcc_zero hocc
    simp [hav, h0]

/-- **C1 witness**: after adding a book and a user and issuing the book, the
stored record is unavailable and held by exactly one user. -/
theorem availability_loan_invariant_witness :
    ({ isbn := "111", title := "Go", author := "A", genre := "T",
       available := false, borrow_count := 1 } : Book) ∈
      allBooks (runOps [.addBook "111" "Go" "A" "T", .addUser "Bob",
        .issue 1001 "111"] initState) ∧
    ((false = false ↔ holders "111"
        (runOps [.addBook "111" "Go" "A" "T", .addUser "Bob",
          .issue 1001 "111"] initState).users = 1) ∧
     (false = true ↔ holders "111"
        (runOps [.addBook "111" "Go" "A" "T", .addUser "Bob",
          .issue 1001 "111"] initState).users = 0)) :=
  ⟨by decide,
   availability_loan_invariant
     [.addBook "111" "Go" "A" "T", .addUser "Bob", .issue 1001 "111"]
     { isbn := "111", title := "Go", author := "A", genre := "T",
       available := false, borrow_count := 1 }
     (by decide)⟩

/-- **C3 counterexample**: in a reachable store where user 1002 already holds
ten books and book "X" is on loan to user 1001, `issue(1002, "X")` fails with
BookUnavailable, not BorrowLimitReached, although 1002's borrowed list has
length 10 — the availability check runs first, refuting "regardless of
whether the book is available". -/
theorem borrow_limit_regardless_counterexample :
    (issue_book 1002 "X" (runOps [.addUser "A", .addUser "B",
      .addBook "X" "t" "a" "g", .addBook "0" "t" "a" "g",
      .addBook "1" "t" "a" "g", .addBook "2" "t" "a" "g",
      .addBook "3" "t" "a" "g", .addBook "4" "t" "a" "g",
      .addBook "5" "t" "a" "g", .addBook "6" "t" "a" "g",
      .addBook "7" "t" "a" "g", .addBook "8" "t" "a" "g",
      .addBook "9" "t" "a" "g", .issue 1001 "X", .issue 1002 "0",
      .issue 1002 "1", .issue 1002 "2", .issue 1002 "3", .issue 1002 "4",
      .issue 1002 "5", .issue 1002 "6", .issue 1002 "7", .issue 1002 "8",
      .issue 1002 "9"] initState)).1 = .bookUnavailable ∧
    ¬ ((issue_book 1002 "X" (runOps [.addUser "A", .addUser "B",
      .addBook "X" "t" "a" "g", .addBook "0" "t" "a" "g",
      .addBook "1" "t" "a" "g", .addBook "2" "t" "a" "g",
      .addBook "3" "t" "a" "g", .addBook "4" "t" "a" "g",
      .addBook "5" "t" "a" "g", .addBook "6" "t" "a" "g",
      .addBook "7" "t" "a" "g", .addBook "8" "t" "a" "g",
      .addBook "9" "t" "a" "g", .issue 1001 "X", .issue 1002 "0",
      .issue 1002 "1", .issue 1002 "2", .issue 1002 "3", .issue 1002 "4",
      .issue 1002 "5", .issue 1002 "6", .issue 1002 "7", .issue 1002 "8",
      .issue 1002 "9"] initState)).1 = .borrowLimitReached) ∧
    (find_user 1002 (runOps [.addUser "A", .addUser "B",
      .addBook "X" "t" "a" "g", .addBook "0" "t" "a" "g",
      .addBook "1" "t" "a" "g", .addBook "2" "t" "a" "g",
      .addBook "3" "t" "a" "g", .addBook "4" "t" "a" "g",
      .addBook "5" "t" "a" "g", .addBook "6" "t" "a" "g",
      .addBook "7" "t" "a" "g", .addBook "8" "t" "a" "g",
      .addBook "9" "t" "a" "g", .issue 1001 "X", .issue 1002 "0",
      .issue 1002 "1", .issue 1002 "2", .issue 1002 "3", .issue 1002 "4",
      .issue 1002 "5", .issue 1002 "6", .issue 1002 "7", .issue 1002 "8",
      .issue 1002 "9"] initState)).map (fun u => u.borrowed.length)
      = some 10 := by
  refine ⟨by decide, by decide, by decide⟩

/-- **C3 amended**: for an existing user and a stored book in any reachable
store, `issue` fails with BorrowLimitReached exactly when the book is
available AND the user's borrowed list has length 10 (the borrow-limit check
runs only after the availability check; length 10 is equivalent to the
source's `>= 10` test because reachable lists never exceed 10). -/
theorem borrow_limit_exact_condition (ops : List Op) (uid : Int)
    (isbn : String) (u : User) (b : Book)
    (hu : find_user uid (runOps ops initState) = some u)
    (hb : search_book_by_isbn isbn (runOps ops initState) = some b) :
    (issue_book uid isbn (runOps ops initState)).1 = .borrowLimitReached ↔
      (b.available = true ∧ u.borrowed.length = 10) := by
  have inv := inv_reachable ops
  have hmem : u ∈ (runOps ops initState).users := by
    unfold find_user at hu
    exact List.mem_of_find?_eq_some hu
  have hlen := inv.blen u hmem
  simp only [MAX_BORROWED] at hlen
  rcases hav : b.available with _ | _
  · simp [issue_book, hu, hb, hav]
  · by_cases hlim : u.borrowed.length ≥ MAX_BORROWED
    · simp only [MAX_BORROWED] at hlim
      simp [issue_book, hu, hb, hav, hlim, MAX_BORROWED]
      omega
    · simp only [MAX_BORROWED] at hlim
      simp [issue_book, hu, hb, hav, hlim, MAX_BORROWED]
      omega

/-- **C3 amended witness**: a user holding ten books is refused an available
eleventh book with BorrowLimitReached. -/
theorem borrow_limit_exact_condition_witness :
    find_user 1001 (runOps [.addUser "B",
      .addBook "X" "t" "a" "g", .addBook "0" "t" "a" "g",
      .addBook "1" "t" "a" "g", .addBook "2" "t" "a" "g",
      .addBook "3" "t" "a" "g", .addBook "4" "t" "a" "g",
      .addBook "5" "t" "a" "g", .addBook "6" "t" "a" "g",
      .addBook "7" "t" "a" "g", .addBook "8" "t" "a" "g",
      .addBook "9" "t" "a" "g", .issue 1001 "0",
      .issue 1001 "1", .issue 1001 "2", .issue 1001 "3", .issue 1001 "4",
      .issue 1001 "5", .issue 1001 "6", .issue 1001 "7", .issue 1001 "8",
      .issue 1001 "9"] initState)
      = some ({ id := 1001, name := "B", borrowed := ["0", "1", "2", "3", "4", "5", "6", "7", "8", "9"] }) ∧
    search_book_by_isbn "X" (runOps [.addUser "B",
      .addBook "X" "t" "a" "g", .addBook "0" "t" "a" "g",
      .addBook "1" "t" "a" "g", .addBook "2" "t" "a" "g",
      .addBook "3" "t" "a" "g", .addBook "4" "t" "a" "g",
      .addBook "5" "t" "a" "g", .addBook "6" "t" "a" "g",
      .addBook "7" "t" "a" "g", .addBook "8" "t" "a" "g",
      .addBook "9" "t" "a" "g", .issue 1001 "0",
      .issue 1001 "1", .issue 1001 "2", .issue 1001 "3", .issue 1001 "4",
      .issue 1001 "5", .issue 1001 "6", .issue 1001 "7", .issue 1001 "8",
      .issue 1001 "9"] initState)
      = some ({ isbn := "X", title := "t", author := "a", genre := "g", available := true, borrow_count := 0 }) ∧
    ((issue_book 1001 "X" (runOps [.addUser "B",
      .addBook "X" "t" "a" "g", .addBook "0" "t" "a" "g",
      .addBook "1" "t" "a" "g", .addBook "2" "t" "a" "g",
      .addBook "3" "t" "a" "g", .addBook "4" "t" "a" "g",
      .addBook "5" "t" "a" "g", .addBook "6" "t" "a" "g",
      .addBook "7" "t" "a" "g", .addBook "8" "t" "a" "g",
      .addBook "9" "t" "a" "g", .issue 1001 "0",
      .issue 1001 "1", .issue 1001 "2", .issue 1001 "3", .issue 1001 "4",
      .issue 1001 "5", .issue 1001 "6", .issue 1001 "7", .issue 1001 "8",
      .issue 1001 "9"] initState)).1 = .borrowLimitReached ↔
      (({ isbn := "X", title := "t", author := "a", genre := "g", available := true, borrow_count := 0 } : Book).available = true ∧
       ({ id := 1001, name := "B", borrowed := ["0", "1", "2", "3", "4", "5", "6", "7", "8", "9"] } : User).borrowed.length = 10)) :=
  ⟨by decide, by decide,
   borrow_limit_exact_condition [.addUser "B",
      .addBook "X" "t" "a" "g", .addBook "0" "t" "a" "g",
      .addBook "1" "t" "a" "g", .addBook "2" "t" "a" "g",
      .addBook "3" "t" "a" "g", .addBook "4" "t" "a" "g",
      .addBook "5" "t" "a" "g", .addBook "6" "t" "a" "g",
      .addBook "7" "t" "a" "g", .addBook "8" "t" "a" "g",
      .addBook "9" "t" "a" "g", .issue 1001 "0",
      .issue 1001 "1", .issue 1001 "2", .issue 1001 "3", .issue 1001 "4",
      .issue 1001 "5", .issue 1001 "6", .issue 1001 "7", .issue 1001 "8",
      .issue 1001 "9"] 1001 "X"
     ({ id := 1001, name := "B", borrowed := ["0", "1", "2", "3", "4", "5", "6", "7", "8", "9"] })
     ({ isbn := "X", title := "t", author := "a", genre := "g", available := true, borrow_count := 0 })
     (by decide) (by decide)⟩

/-- **C6**: adding a book whose ISBN is already present (in a store whose
chains are indexed by the ISBN hash, as every store the program builds is)
is a no-op: the store, including the original record's fields, is returned
unchanged and the duplicate is discarded. -/
theorem duplicate_insert_is_noop (s : LibState) (nb b0 : Book)
    (hplaced : ∀ i, ∀ b ∈ s.table i, hash_function b.isbn = i)
    (hb0 : b0 ∈ allBooks s) (he : b0.isbn = nb.isbn) :
    insert_book nb s = s := by
  obtain ⟨i, hi, hbi⟩ := mem_allBooks.mp hb0
  have hpl := hplaced i b0 hbi
  rw [he] at hpl
  rw [← hpl] at hbi
  unfold insert_book
  rw [if_pos (List.any_eq_true.mpr ⟨b0, hbi, by simp [he]⟩)]

/-- **C6 witness**: re-adding ISBN "111" to a store that already holds it
changes nothing. -/
theorem duplicate_insert_is_noop_witness :
    insert_book
      { isbn := "111", title := "Other", author := "B", genre := "H", available := true, borrow_count := 0 }
      (runOps [.addBook "111" "Go" "A" "T"] initState)
      = runOps [.addBook "111" "Go" "A" "T"] initState :=
  duplicate_insert_is_noop (runOps [.addBook "111" "Go" "A" "T"] initState)
    ({ isbn := "111", title := "Other", author := "B", genre := "H", available := true, borrow_count := 0 })
    ({ isbn := "111", title := "Go", author := "A", genre := "T", available := true, borrow_count := 0 })
    (inv_reachable [.addBook "111" "Go" "A" "T"]).placed
    (by decide) (by decide)

/-- **C5** (code bug in the source): after adding the book "111"/"Go" and
removing it again, the hash table is empty but the title BST still holds a
reference to the removed record — `remove_book`'s `// Remove from BST`
comment has no code under it, so TitleIndex does not match BookIndex. -/
theorem bst_retains_removed_book :
    (remove_book "111" (runOps [.addBook "111" "Go" "A" "T"] initState)).1
      = .ok ∧
    allBooks ((remove_book "111"
      (runOps [.addBook "111" "Go" "A" "T"] initState)).2) = [] ∧
    treeEntries ((remove_book "111"
      (runOps [.addBook "111" "Go" "A" "T"] initState)).2).bst
      = [("Go", "111")] := by
  refine ⟨by decide, by decide, by decide⟩

/-- **C4**: in any reachable store, when user `u` holds `isbn` and a book
with that ISBN is stored, `return` succeeds; it removes exactly the first
occurrence of `isbn` from `u`'s borrowed list, shifting the later entries
left (the other entries keep their relative order); the stored record ends
up identical except that `available` is now `true` (`borrow_count` is
untouched); and an immediate second `return` fails with NotBorrowedByUser. -/
theorem return_book_removes_first_occurrence (ops : List Op) (uid : Int)
    (isbn : String) (u : User) (b : Book)
    (hu : find_user uid (runOps ops initState) = some u)
    (hmem : isbn ∈ u.borrowed)
    (hb : search_book_by_isbn isbn (runOps ops initState) = some b) :
    (return_book uid isbn (runOps ops initState)).1 = .ok ∧
    (∃ l₁ l₂, u.borrowed = l₁ ++ isbn :: l₂ ∧ ¬ (isbn ∈ l₁) ∧
      removeFirstIsbn isbn u.borrowed = l₁ ++ l₂) ∧
    find_user uid (return_book uid isbn (runOps ops initState)).2
      = some ({ u with borrowed := removeFirstIsbn isbn u.borrowed }) ∧
    search_book_by_isbn isbn (return_book uid isbn (runOps ops initState)).2
      = some ({ b with available := true }) ∧
    (return_book uid isbn ((return_book uid isbn (runOps ops initState)).2)).1
      = .notBorrowedByUser := by
  have inv := inv_reachable ops
  have hu0 := hu
  have hb0 := hb
  unfold find_user at hu
  unfold search_book_by_isbn at hb
  have huid : u.id = uid := by simpa using List.find?_some hu
  have hbisbn : b.isbn = isbn := by simpa using List.find?_some hb
  have husermem : u ∈ (runOps ops initState).users := List.mem_of_find?_eq_some hu
  have hh := hash_function_lt isbn
  have hbs : b ∈ (runOps ops initState).table (hash_function isbn) :=
    List.mem_of_find?_eq_some hb
  have hball : b ∈ allBooks (runOps ops initState) := mem_allBooks.mpr ⟨_, hh, hbs⟩
  -- the held ISBN occurs exactly once in u's list
  have hoccbook := inv.occ b hball
  rw [hbisbn] at hoccbook
  have hpos : 0 < totalOcc isbn (runOps ops initState).users :=
    totalOcc_pos_of_mem husermem hmem
  have hav : b.available = false := by
    rcases h : b.available with _ | _
    · rfl
    · rw [h, if_pos rfl] at hoccbook
      omega
  have hocc1 : totalOcc isbn (runOps ops initState).users = 1 := by
    rw [hav] at hoccbook
    simpa using hoccbook
  obtain ⟨us₁, us₂, husers, hus₁0⟩ := find?_decomp hu
  have hus₁ : ∀ y ∈ us₁, ¬ (y.id = uid) := fun y hy => by simpa using hus₁0 y hy
  have hcu1 : occCount isbn u.borrowed = 1 := by
    rw [husers, totalOcc_append, totalOcc_cons] at hocc1
    have := occCount_pos_of_mem hmem
    omega
  obtain ⟨l₁, l₂, hsplit, hnotin⟩ := mem_first_decomp hmem
  have hl₁ : ∀ y ∈ l₁, ¬ (y = isbn) := fun y hy he => hnotin (he ▸ hy)
  have hrem : removeFirstIsbn isbn u.borrowed = l₁ ++ l₂ := by
    rw [hsplit]
    exact removeFirstIsbn_decomp hl₁
  have hnotin₂ : ¬ (isbn ∈ l₂) := by
    intro hmem₂
    have hp := occCount_pos_of_mem hmem₂
    rw [hsplit, occCount_append] at hcu1
    have hcons : occCount isbn (isbn :: l₂) = 1 + occCount isbn l₂ := by
      simp [occCount]
    omega
  obtain ⟨c₁, c₂, hchain, hc₁0⟩ := find?_decomp hb
  have hc₁ : ∀ y ∈ c₁, ¬ (y.isbn = isbn) := fun y hy => by simpa using hc₁0 y hy
  have hU : updateFirstUser uid
      (fun v => { v with borrowed := removeFirstIsbn isbn v.borrowed })
      (runOps ops initState).users
      = us₁ ++ ({ u with borrowed := removeFirstIsbn isbn u.borrowed }) :: us₂ := by
    rw [husers]
    exact updateFirstUser_decomp _ hus₁ huid
  have hchain2 : updateFirstBook isbn (fun v => { v with available := true })
      ((runOps ops initState).table (hash_function isbn))
      = c₁ ++ ({ b with available := true }) :: c₂ := by
    rw [hchain]
    exact updateFirstBook_decomp _ hc₁ hbisbn
  simp only [return_book, hu0, hb0, hmem, if_true, updateBook]
  refine ⟨trivial, ⟨l₁, l₂, hsplit, hnotin, hrem⟩, ?r3, ?r4, ?r5⟩
  case r3 =>
    show List.find? _ (updateFirstUser uid _ (runOps ops initState).users) = _
    rw [hU]
    exact find?_append_cons
      (fun y hy => by simpa using hus₁ y hy) (by simpa using huid)
  case r4 =>
    show List.find? _ (if _ = _ then _ else _) = _
    rw [if_pos rfl, hchain2]
    exact find?_append_cons
      (fun y hy => by simpa using hc₁ y hy) (by simpa using hbisbn)
  case r5 =>
    have hfind2 : List.find? (fun v => decide (v.id = uid))
        (updateFirstUser uid
          (fun v => { v with borrowed := removeFirstIsbn isbn v.borrowed })
          (runOps ops initState).users)
        = some ({ u with borrowed := removeFirstIsbn isbn u.borrowed }) := by
      rw [hU]
      exact find?_append_cons
        (fun y hy => by simpa using hus₁ y hy) (by simpa using huid)
    have hsearch2 : List.find? (fun v => decide (v.isbn = isbn))
        (updateFirstBook isbn (fun v => { v with available := true })
          ((runOps ops initState).table (hash_function isbn)))
        = some ({ b with available := true }) := by
      rw [hchain2]
      exact find?_append_cons
        (fun y hy => by simpa using hc₁ y hy) (by simpa using hbisbn)
    have hnm : ¬ (isbn ∈ removeFirstIsbn isbn u.borrowed) := by
      rw [hrem]
      simp only [List.mem_append, not_or]
      exact ⟨hnotin, hnotin₂⟩
    simp only [return_book, find_user, search_book_by_isbn, hfind2, if_true,
      hsearch2, hnm, if_false]

/-- **C4 witness**: returning "111" held by user 1001 succeeds, empties the
borrowed list, re-marks the book available with its borrow count intact, and
a second return is refused. -/
theorem return_book_removes_first_occurrence_witness :
    find_user 1001 (runOps [.addBook "111" "Go" "A" "T", .addUser "Ann", .issue 1001 "111"] initState)
      = some ({ id := 1001, name := "Ann", borrowed := ["111"] }) ∧
    "111" ∈ ({ id := 1001, name := "Ann", borrowed := ["111"] } : User).borrowed ∧
    search_book_by_isbn "111" (runOps [.addBook "111" "Go" "A" "T", .addUser "Ann", .issue 1001 "111"] initState)
      = some ({ isbn := "111", title := "Go", author := "A", genre := "T", available := false, borrow_count := 1 }) ∧
    ((return_book 1001 "111" (runOps [.addBook "111" "Go" "A" "T", .addUser "Ann", .issue 1001 "111"] initState)).1 = .ok ∧
     (∃ l₁ l₂, ({ id := 1001, name := "Ann", borrowed := ["111"] } : User).borrowed = l₁ ++ "111" :: l₂ ∧ ¬ ("111" ∈ l₁) ∧
       removeFirstIsbn "111" ({ id := 1001, name := "Ann", borrowed := ["111"] } : User).borrowed = l₁ ++ l₂) ∧
     find_user 1001 (return_book 1001 "111" (runOps [.addBook "111" "Go" "A" "T", .addUser "Ann", .issue 1001 "111"] initState)).2
       = some ({ ({ id := 1001, name := "Ann", borrowed := ["111"] } : User) with borrowed := removeFirstIsbn "111" ({ id := 1001, name := "Ann", borrowed := ["111"] } : User).borrowed }) ∧
     search_book_by_isbn "111" (return_book 1001 "111" (runOps [.addBook "111" "Go" "A" "T", .addUser "Ann", .issue 1001 "111"] initState)).2
       = some ({ ({ isbn := "111", title := "Go", author := "A", genre := "T", available := false, borrow_count := 1 } : Book) with available := true }) ∧
     (return_book 1001 "111" ((return_book 1001 "111" (runOps [.addBook "111" "Go" "A" "T", .addUser "Ann", .issue 1001 "111"] initState)).2)).1
       = .notBorrowedByUser) :=
  ⟨by decide, by decide, by decide,
   return_book_removes_first_occurrence
     [.addBook "111" "Go" "A" "T", .addUser "Ann", .issue 1001 "111"]
     1001 "111"
     ({ id := 1001, name := "Ann", borrowed := ["111"] })
     ({ isbn := "111", title := "Go", author := "A", genre := "T", available := false, borrow_count := 1 })
     (by decide) (by decide) (by decide)⟩

/-- **C10**: a successful `issue` or `return` changes only the resolved
user's borrowed list and the resolved book's record (its `available` flag,
and for issue its `borrow_count`): all other users keep their position and
fields, all other chain records and all other buckets are untouched, and the
BST and `next_user_id` are exactly as before. -/
theorem successful_circulation_frame (uid : Int) (isbn : String)
    (s : LibState) :
    ((issue_book uid isbn s).1 = .ok →
      ∃ us₁ us₂ u c₁ c₂ b,
        s.users = us₁ ++ u :: us₂ ∧ u.id = uid ∧ (∀ v ∈ us₁, ¬ (v.id = uid)) ∧
        s.table (hash_function isbn) = c₁ ++ b :: c₂ ∧ b.isbn = isbn ∧
        (∀ y ∈ c₁, ¬ (y.isbn = isbn)) ∧
        (issue_book uid isbn s).2.users
          = us₁ ++ ({ u with borrowed := u.borrowed ++ [isbn] }) :: us₂ ∧
        (issue_book uid isbn s).2.table (hash_function isbn)
          = c₁ ++ ({ b with available := false, borrow_count := b.borrow_count + 1 }) :: c₂ ∧
        (∀ i, ¬ (i = hash_function isbn) → (issue_book uid isbn s).2.table i = s.table i) ∧
        (issue_book uid isbn s).2.bst = s.bst ∧
        (issue_book uid isbn s).2.nextUserId = s.nextUserId) ∧
    ((return_book uid isbn s).1 = .ok →
      ∃ us₁ us₂ u c₁ c₂ b,
        s.users = us₁ ++ u :: us₂ ∧ u.id = uid ∧ (∀ v ∈ us₁, ¬ (v.id = uid)) ∧
        s.table (hash_function isbn) = c₁ ++ b :: c₂ ∧ b.isbn = isbn ∧
        (∀ y ∈ c₁, ¬ (y.isbn = isbn)) ∧
        (return_book uid isbn s).2.users
          = us₁ ++ ({ u with borrowed := removeFirstIsbn isbn u.borrowed }) :: us₂ ∧
        (return_book uid isbn s).2.table (hash_function isbn)
          = c₁ ++ ({ b with available := true }) :: c₂ ∧
        (∀ i, ¬ (i = hash_function isbn) → (return_book uid isbn s).2.table i = s.table i) ∧
        (return_book uid isbn s).2.bst = s.bst ∧
        (return_book uid isbn s).2.nextUserId = s.nextUserId) := by
  constructor
  · intro hok
    rcases hfu : find_user uid s with _ | u
    · simp [issue_book, hfu] at hok
    rcases hfb : search_book_by_isbn isbn s with _ | b
    · simp [issue_book, hfu, hfb] at hok
    rcases hav : b.available with _ | _
    · simp [issue_book, hfu, hfb, hav] at hok
    by_cases hlim : u.borrowed.length ≥ MAX_BORROWED
    · simp [issue_book, hfu, hfb, hav, hlim] at hok
    have hfu' := hfu
    have hfb' := hfb
    unfold find_user at hfu'
    unfold search_book_by_isbn at hfb'
    have huid : u.id = uid := by simpa using List.find?_some hfu'
    have hbisbn : b.isbn = isbn := by simpa using List.find?_some hfb'
    obtain ⟨us₁, us₂, husers, hus₁0⟩ := find?_decomp hfu'
    have hus₁ : ∀ y ∈ us₁, ¬ (y.id = uid) := fun y hy => by simpa using hus₁0 y hy
    obtain ⟨c₁, c₂, hchain, hc₁0⟩ := find?_decomp hfb'
    have hc₁ : ∀ y ∈ c₁, ¬ (y.isbn = isbn) := fun y hy => by simpa using hc₁0 y hy
    refine ⟨us₁, us₂, u, c₁, c₂, b, husers, huid, hus₁, hchain, hbisbn, hc₁,
      ?hu2, ?ht2, ?hoth, ?hbst, ?hnid⟩
    case hu2 =>
      simp only [issue_book, hfu, hfb, hav, hlim, Bool.true_eq_false, if_false, updateBook]
      show updateFirstUser uid _ s.users = _
      rw [husers]
      exact updateFirstUser_decomp _ hus₁ huid
    case ht2 =>
      simp only [issue_book, hfu, hfb, hav, hlim, Bool.true_eq_false, if_false,
        updateBook, if_true]
      rw [hchain]
      exact updateFirstBook_decomp _ hc₁ hbisbn
    case hoth =>
      intro i hi
      simp only [issue_book, hfu, hfb, hav, hlim, Bool.true_eq_false, if_false, updateBook]
      show (if i = hash_function isbn then _ else _) = _
      rw [if_neg hi]
    case hbst =>
      simp only [issue_book, hfu, hfb, hav, hlim, Bool.true_eq_false, if_false, updateBook]
    case hnid =>
      simp only [issue_book, hfu, hfb, hav, hlim, Bool.true_eq_false, if_false, updateBook]
  · intro hok
    rcases hfu : find_user uid s with _ | u
    · simp [return_book, hfu] at hok
    rcases hfb : search_book_by_isbn isbn s with _ | b
    · simp [return_book, hfu, hfb] at hok
    by_cases hmem : isbn ∈ u.borrowed
    case neg => simp [return_book, hfu, hfb, hmem] at hok
    have hfu' := hfu
    have hfb' := hfb
    unfold find_user at hfu'
    unfold search_book_by_isbn at hfb'
    have huid : u.id = uid := by simpa using List.find?_some hfu'
    have hbisbn : b.isbn = isbn := by simpa using List.find?_some hfb'
    obtain ⟨us₁, us₂, husers, hus₁0⟩ := find?_decomp hfu'
    have hus₁ : ∀ y ∈ us₁, ¬ (y.id = uid) := fun y hy => by simpa using hus₁0 y hy
    obtain ⟨c₁, c₂, hchain, hc₁0⟩ := find?_decomp hfb'
    have hc₁ : ∀ y ∈ c₁, ¬ (y.isbn = isbn) := fun y hy => by simpa using hc₁0 y hy
    refine ⟨us₁, us₂, u, c₁, c₂, b, husers, huid, hus₁, hchain, hbisbn, hc₁,
      ?ru2, ?rt2, ?roth, ?rbst, ?rnid⟩
    case ru2 =>
      show (return_book uid isbn s).2.users = _
      simp only [return_book, find_user, search_book_by_isbn, hfu', hfb', hmem, if_true, updateBook]
      show updateFirstUser uid _ s.users = _
      rw [husers]
      exact updateFirstUser_decomp _ hus₁ huid
    case rt2 =>
      simp only [return_book, find_user, search_book_by_isbn, hfu', hfb', hmem, if_true, updateBook]
      rw [hchain]
      exact updateFirstBook_decomp _ hc₁ hbisbn
    case roth =>
      intro i hi
      simp only [return_book, find_user, search_book_by_isbn, hfu', hfb', hmem, if_true, updateBook]
      show (if i = hash_function isbn then _ else _) = _
      rw [if_neg hi]
    case rbst =>
      simp only [return_book, find_user, search_book_by_isbn, hfu', hfb', hmem, if_true, updateBook]
    case rnid =>
      simp only [return_book, find_user, search_book_by_isbn, hfu', hfb', hmem, if_true, updateBook]

/-- **C10 witness**: the frame property evaluated for user 1001 and ISBN
"111" on a concrete two-book, two-user store. -/
theorem successful_circulation_frame_witness :
    ((issue_book 1001 "111" (runOps [.addBook "111" "Go" "A" "T", .addBook "222" "Ru" "B" "T", .addUser "Ann", .addUser "Bea"] initState)).1 = .ok →
      ∃ us₁ us₂ u c₁ c₂ b,
        (runOps [.addBook "111" "Go" "A" "T", .addBook "222" "Ru" "B" "T", .addUser "Ann", .addUser "Bea"] initState).users = us₁ ++ u :: us₂ ∧ u.id = 1001 ∧ (∀ v ∈ us₁, ¬ (v.id = 1001)) ∧
        (runOps [.addBook "111" "Go" "A" "T", .addBook "222" "Ru" "B" "T", .addUser "Ann", .addUser "Bea"] initState).table (hash_function "111") = c₁ ++ b :: c₂ ∧ b.isbn = "111" ∧
        (∀ y ∈ c₁, ¬ (y.isbn = "111")) ∧
        (issue_book 1001 "111" (runOps [.addBook "111" "Go" "A" "T", .addBook "222" "Ru" "B" "T", .addUser "Ann", .addUser "Bea"] initState)).2.users
          = us₁ ++ ({ u with borrowed := u.borrowed ++ ["111"] }) :: us₂ ∧
        (issue_book 1001 "111" (runOps [.addBook "111" "Go" "A" "T", .addBook "222" "Ru" "B" "T", .addUser "Ann", .addUser "Bea"] initState)).2.table (hash_function "111")
          = c₁ ++ ({ b with available := false, borrow_count := b.borrow_count + 1 }) :: c₂ ∧
        (∀ i, ¬ (i = hash_function "111") → (issue_book 1001 "111" (runOps [.addBook "111" "Go" "A" "T", .addBook "222" "Ru" "B" "T", .addUser "Ann", .addUser "Bea"] initState)).2.table i = (runOps [.addBook "111" "Go" "A" "T", .addBook "222" "Ru" "B" "T", .addUser "Ann", .addUser "Bea"] initState).table i) ∧
        (issue_book 1001 "111" (runOps [.addBook "111" "Go" "A" "T", .addBook "222" "Ru" "B" "T", .addUser "Ann", .addUser "Bea"] initState)).2.bst = (runOps [.addBook "111" "Go" "A" "T", .addBook "222" "Ru" "B" "T", .addUser "Ann", .addUser "Bea"] initState).bst ∧
        (issue_book 1001 "111" (runOps [.addBook "111" "Go" "A" "T", .addBook "222" "Ru" "B" "T", .addUser "Ann", .addUser "Bea"] initState)).2.nextUserId = (runOps [.addBook "111" "Go" "A" "T", .addBook "222" "Ru" "B" "T", .addUser "Ann", .addUser "Bea"] initState).nextUserId) ∧
    ((return_book 1001 "111" (runOps [.addBook "111" "Go" "A" "T", .addBook "222" "Ru" "B" "T", .addUser "Ann", .addUser "Bea"] initState)).1 = .ok →
      ∃ us₁ us₂ u c₁ c₂ b,
        (runOps [.addBook "111" "Go" "A" "T", .addBook "222" "Ru" "B" "T", .addUser "Ann", .addUser "Bea"] initState).users = us₁ ++ u :: us₂ ∧ u.id = 1001 ∧ (∀ v ∈ us₁, ¬ (v.id = 1001)) ∧
        (runOps [.addBook "111" "Go" "A" "T", .addBook "222" "Ru" "B" "T", .addUser "Ann", .addUser "Bea"] initState).table (hash_function "111") = c₁ ++ b :: c₂ ∧ b.isbn = "111" ∧
        (∀ y ∈ c₁, ¬ (y.isbn = "111")) ∧
        (return_book 1001 "111" (runOps [.addBook "111" "Go" "A" "T", .addBook "222" "Ru" "B" "T", .addUser "Ann", .addUser "Bea"] initState)).2.users
          = us₁ ++ ({ u with borrowed := removeFirstIsbn "111" u.borrowed }) :: us₂ ∧
        (return_book 1001 "111" (runOps [.addBook "111" "Go" "A" "T", .addBook "222" "Ru" "B" "T", .addUser "Ann", .addUser "Bea"] initState)).2.table (hash_function "111")
          = c₁ ++ ({ b with available := true }) :: c₂ ∧
        (∀ i, ¬ (i = hash_function "111") → (return_book 1001 "111" (runOps [.addBook "111" "Go" "A" "T", .addBook "222" "Ru" "B" "T", .addUser "Ann", .addUser "Bea"] initState)).2.table i = (runOps [.addBook "111" "Go" "A" "T", .addBook "222" "Ru" "B" "T", .addUser "Ann", .addUser "Bea"] initState).table i) ∧
        (return_book 1001 "111" (runOps [.addBook "111" "Go" "A" "T", .addBook "222" "Ru" "B" "T", .addUser "Ann", .addUser "Bea"] initState)).2.bst = (runOps [.addBook "111" "Go" "A" "T", .addBook "222" "Ru" "B" "T", .addUser "Ann", .addUser "Bea"] initState).bst ∧
        (return_book 1001 "111" (runOps [.addBook "111" "Go" "A" "T", .addBook "222" "Ru" "B" "T", .addUser "Ann", .addUser "Bea"] initState)).2.nextUserId = (runOps [.addBook "111" "Go" "A" "T", .addBook "222" "Ru" "B" "T", .addUser "Ann", .addUser "Bea"] initState).nextUserId) :=
  successful_circulation_frame 1001 "111"
    (runOps [.addBook "111" "Go" "A" "T", .addBook "222" "Ru" "B" "T", .addUser "Ann", .addUser "Bea"] initState)

-- --- Bubble sort lemmas ---

theorem fullPass_length (l : List Book) : (fullPass l).length = l.length := by
  induction l using fullPass.induct with
  | case1 => simp [fullPass]
  | case2 a => simp [fullPass]
  | case3 a b rest hlt ih =>
      simp only [fullPass, if_pos hlt, List.length_cons] at *
      omega
  | case4 a b rest hlt ih =>
      simp only [fullPass, if_neg hlt, List.length_cons] at *
      omega

theorem fullPass_perm (l : List Book) : List.Perm (fullPass l) l := by
  induction l using fullPass.induct with
  | case1 => simp [fullPass]
  | case2 a => simp [fullPass]
  | case3 a b rest hlt ih =>
      simp only [fullPass, if_pos hlt]
      exact (ih.cons b).trans (List.Perm.swap a b rest)
  | case4 a b rest hlt ih =>
      simp only [fullPass, if_neg hlt]
      exact ih.cons a

theorem fullPass_min (l : List Book) (hne : ¬ (l = [])) :
    ∃ q m, fullPass l = q ++ [m] ∧
      ∀ x ∈ l, m.borrow_count ≤ x.borrow_count := by
  induction l using fullPass.induct with
  | case1 => exact absurd rfl hne
  | case2 a => exact ⟨[], a, by simp [fullPass], by simp⟩
  | case3 a b rest hlt ih =>
      obtain ⟨q, m, heq, hmin⟩ := ih (by simp)
      refine ⟨b :: q, m, by simp [fullPass, if_pos hlt, heq], ?hc3⟩
      intro x hx
      rcases List.mem_cons.mp hx with rfl | hx
      · have := hmin x (by simp)
        omega
      · rcases List.mem_cons.mp hx with rfl | hx
        · have := hmin a (by simp)
          omega
        · exact hmin x (by simp [hx])
  | case4 a b rest hlt ih =>
      obtain ⟨q, m, heq, hmin⟩ := ih (by simp)
      refine ⟨a :: q, m, by simp [fullPass, if_neg hlt, heq], ?hc4⟩
      intro x hx
      rcases List.mem_cons.mp hx with rfl | hx
      · have := hmin b (by simp)
        omega
      · rcases List.mem_cons.mp hx with rfl | hx
        · have := hmin x (by simp)
          omega
        · exact hmin x (by simp [hx])

theorem bubblePass_append : ∀ (k : Nat) (p t : List Book),
    p.length = k + 1 → bubblePass (p ++ t) k = fullPass p ++ t := by
  intro k
  induction k with
  | zero =>
      intro p t hp
      rcases p with _ | ⟨a, p'⟩
      · simp at hp
      · have : p' = [] := by
          simp only [List.length_cons] at hp
          exact List.eq_nil_of_length_eq_zero (by omega)
        subst this
        simp [bubblePass, fullPass]
  | succ k ih =>
      intro p t hp
      rcases p with _ | ⟨a, p'⟩
      · simp at hp
      rcases p' with _ | ⟨b, p''⟩
      · simp at hp
      have hlen : (a :: p'').length = k + 1 := by
        simp only [List.length_cons] at *
        omega
      have hlen2 : (b :: p'').length = k + 1 := by
        simp only [List.length_cons] at *
        omega
      show bubblePass (a :: b :: (p'' ++ t)) (k + 1) = _
      by_cases hlt : a.borrow_count < b.borrow_count
      · simp only [bubblePass, if_pos hlt, fullPass]
        rw [show a :: (p'' ++ t) = (a :: p'') ++ t from rfl, ih _ t hlen]
        rfl
      · simp only [bubblePass, if_neg hlt, fullPass]
        rw [show b :: (p'' ++ t) = (b :: p'') ++ t from rfl, ih _ t hlen2]
        rfl

theorem bubblePass_eq_fullPass : ∀ (k : Nat) (l : List Book),
    l.length ≤ k + 1 → bubblePass l k = fullPass l := by
  intro k
  induction k with
  | zero =>
      intro l hl
      rcases l with _ | ⟨a, l'⟩
      · simp [bubblePass, fullPass]
      · have : l' = [] := by
          simp only [List.length_cons] at hl
          exact List.eq_nil_of_length_eq_zero (by omega)
        subst this
        simp [bubblePass, fullPass]
  | succ k ih =>
      intro l hl
      rcases l with _ | ⟨a, l'⟩
      · simp [bubblePass, fullPass]
      rcases l' with _ | ⟨b, l''⟩
      · simp [bubblePass, fullPass]
      simp only [List.length_cons] at hl
      by_cases hlt : a.borrow_count < b.borrow_count
      · simp only [bubblePass, if_pos hlt, fullPass]
        rw [ih (a :: l'') (by simp only [List.length_cons]; omega)]
      · simp only [bubblePass, if_neg hlt, fullPass]
        rw [ih (b :: l'') (by simp only [List.length_cons]; omega)]

theorem pairwise_of_length_le_one {R : Book → Book → Prop} {l : List Book}
    (h : l.length ≤ 1) : List.Pairwise R l := by
  rcases l with _ | ⟨a, l'⟩
  · exact List.Pairwise.nil
  · have : l' = [] := by
      simp only [List.length_cons] at h
      exact List.eq_nil_of_length_eq_zero (by omega)
    subst this
    simp

theorem bubbleSortAux_sorted : ∀ (k : Nat) (l : List Book),
    List.Pairwise (fun a b => b.borrow_count ≤ a.borrow_count) (l.drop (k + 1)) →
    (∀ x ∈ l.take (k + 1), ∀ y ∈ l.drop (k + 1), y.borrow_count ≤ x.borrow_count) →
    List.Pairwise (fun a b => b.borrow_count ≤ a.borrow_count) (bubbleSortAux k l) := by
  intro k
  induction k with
  | zero =>
      intro l hsort hdom
      show List.Pairwise _ l
      rcases l with _ | ⟨a, t⟩
      · exact List.Pairwise.nil
      · simp only [List.drop_succ_cons, List.drop_zero] at hsort
        simp only [List.take_succ_cons, List.take_zero, List.drop_succ_cons,
          List.drop_zero] at hdom
        exact List.Pairwise.cons (fun y hy => hdom a (by simp) y hy) hsort
  | succ k ih =>
      intro l hsort hdom
      show List.Pairwise _ (bubbleSortAux k (bubblePass l (k + 2 - 1)))
      by_cases hlen : l.length ≤ k + 2
      · -- the pass covers the whole list
        rw [show k + 2 - 1 = k + 1 from rfl,
          bubblePass_eq_fullPass (k + 1) l (by omega)]
        by_cases hsmall : l.length ≤ k + 1
        · refine ih (fullPass l) ?hs1 ?hd1
          case hs1 =>
            rw [List.drop_eq_nil_of_le (by rw [fullPass_length]; omega)]
            exact List.Pairwise.nil
          case hd1 =>
            intro x hx y hy
            rw [List.drop_eq_nil_of_le (by rw [fullPass_length]; omega)] at hy
            simp at hy
        · have hexact : l.length = k + 2 := by omega
          have hne : ¬ (l = []) := by
            intro he
            rw [he] at hexact
            simp at hexact
          obtain ⟨q, m, heq, hmin⟩ := fullPass_min l hne
          have hq : q.length = k + 1 := by
            have := fullPass_length l
            rw [heq] at this
            simp only [List.length_append, List.length_singleton] at this
            omega
          refine ih (fullPass l) ?hs2 ?hd2
          case hs2 =>
            rw [heq, ← hq, List.drop_left]
            simp
          case hd2 =>
            intro x hx y hy
            rw [heq, ← hq, List.drop_left] at hy
            rw [heq, ← hq, List.take_left] at hx
            have hxl : x ∈ l := (fullPass_perm l).mem_iff.mp
              (by rw [heq]; exact List.mem_append_left _ hx)
            rcases List.mem_singleton.mp hy with rfl
            exact hmin x hxl
      · -- the pass covers the first k+2 entries; the tail is already placed
        have hsplit : l = l.take (k + 2) ++ l.drop (k + 2) :=
          (List.take_append_drop (k + 2) l).symm
        have hplen : (l.take (k + 2)).length = k + 2 := by
          rw [List.length_take]
          omega
        have hpass : bubblePass l (k + 1) = fullPass (l.take (k + 2)) ++ l.drop (k + 2) := by
          conv =>
            lhs
            rw [hsplit]
          exact bubblePass_append (k + 1) _ _ hplen
        have hne : ¬ (l.take (k + 2) = []) := by
          intro he
          rw [he] at hplen
          simp at hplen
        obtain ⟨q, m, heq, hmin⟩ := fullPass_min _ hne
        have hq : q.length = k + 1 := by
          have := fullPass_length (l.take (k + 2))
          rw [heq] at this
          simp only [List.length_append, List.length_singleton] at this
          omega
        have hform : bubblePass l (k + 1) = q ++ (m :: l.drop (k + 2)) := by
          rw [hpass, heq, List.append_assoc]
          rfl
        have hmem_m : m ∈ l.take (k + 2) := (fullPass_perm _).mem_iff.mp
          (by rw [heq]; exact List.mem_append_right _ (by simp))
        rw [show k + 2 - 1 = k + 1 from rfl]
        refine ih (bubblePass l (k + 1)) ?hs3 ?hd3
        case hs3 =>
          rw [hform, ← hq, List.drop_left]
          refine List.Pairwise.cons ?hmdom hsort
          intro y hy
          exact hdom m hmem_m y hy
        case hd3 =>
          intro x hx y hy
          rw [hform, ← hq, List.drop_left] at hy
          rw [hform, ← hq, List.take_left] at hx
          have hxp : x ∈ l.take (k + 2) := (fullPass_perm _).mem_iff.mp
            (by rw [heq]; exact List.mem_append_left _ hx)
          rcases List.mem_cons.mp hy with rfl | hy
          · exact hmin x hxp
          · exact hdom x (by exact hxp) y hy

theorem bubbleSort_sorted (l : List Book) :
    List.Pairwise (fun a b => b.borrow_count ≤ a.borrow_count) (bubbleSort l) := by
  unfold bubbleSort
  apply bubbleSortAux_sorted
  · rw [List.drop_eq_nil_of_le (by omega)]
    exact List.Pairwise.nil
  · intro x hx y hy
    rw [List.drop_eq_nil_of_le (by omega)] at hy
    simp at hy

/-- **C9**: for every store, the most-borrowed report emits at most 10
books, every emitted book has a positive borrow count, and the emitted
sequence is sorted non-increasingly by `borrow_count`. -/
theorem most_borrowed_report_properties (s : LibState) :
    (list_most_borrowed_books s).length ≤ 10 ∧
    (∀ b ∈ list_most_borrowed_books s, b.borrow_count > 0) ∧
    List.Pairwise (fun a b => b.borrow_count ≤ a.borrow_count)
      (list_most_borrowed_books s) := by
  refine ⟨?hlen, ?hpos, ?hsort⟩
  case hlen =>
    show (((bubbleSort ((allBooks s).take MAX_BOOKS)).take
        (min 10 ((allBooks s).take MAX_BOOKS).length)).filter
        (fun b => b.borrow_count > 0)).length ≤ 10
    calc (((bubbleSort ((allBooks s).take MAX_BOOKS)).take
            (min 10 ((allBooks s).take MAX_BOOKS).length)).filter
            (fun b => b.borrow_count > 0)).length
        ≤ ((bubbleSort ((allBooks s).take MAX_BOOKS)).take
            (min 10 ((allBooks s).take MAX_BOOKS).length)).length :=
          List.length_filter_le _ _
      _ ≤ min 10 ((allBooks s).take MAX_BOOKS).length := by
          rw [List.length_take]
          exact Nat.min_le_left _ _
      _ ≤ 10 := Nat.min_le_left _ _
  case hpos =>
    intro b hb
    have := (List.mem_filter.mp hb).2
    simpa using this
  case hsort =>
    show List.Pairwise _ (((bubbleSort ((allBooks s).take MAX_BOOKS)).take
        (min 10 ((allBooks s).take MAX_BOOKS).length)).filter
        (fun b => b.borrow_count > 0))
    refine List.Pairwise.sublist ?hsub (bubbleSort_sorted ((allBooks s).take MAX_BOOKS))
    exact (List.filter_sublist _).trans (List.take_sublist _ _)

/-- **C9 witness**: the report properties evaluated on a concrete store with
two borrowed books. -/
theorem most_borrowed_report_properties_witness :
    (list_most_borrowed_books (runOps [.addBook "b1" "T1" "A" "G", .addBook "b2" "T2" "A" "G", .addUser "U", .issue 1001 "b1", .ret 1001 "b1", .issue 1001 "b1", .ret 1001 "b1", .issue 1001 "b2"] initState)).length ≤ 10 ∧
    (∀ b ∈ list_most_borrowed_books (runOps [.addBook "b1" "T1" "A" "G", .addBook "b2" "T2" "A" "G", .addUser "U", .issue 1001 "b1", .ret 1001 "b1", .issue 1001 "b1", .ret 1001 "b1", .issue 1001 "b2"] initState), b.borrow_count > 0) ∧
    List.Pairwise (fun a b => b.borrow_count ≤ a.borrow_count)
      (list_most_borrowed_books (runOps [.addBook "b1" "T1" "A" "G", .addBook "b2" "T2" "A" "G", .addUser "U", .issue 1001 "b1", .ret 1001 "b1", .issue 1001 "b1", .ret 1001 "b1", .issue 1001 "b2"] initState)) :=
  most_borrowed_report_properties
    (runOps [.addBook "b1" "T1" "A" "G", .addBook "b2" "T2" "A" "G", .addUser "U", .issue 1001 "b1", .ret 1001 "b1", .issue 1001 "b1", .ret 1001 "b1", .issue 1001 "b2"] initState)

-- --- Decimal printing / parsing lemmas ---

theorem digitChar_isDigit (d : Nat) : (digitChar d).isDigit = true := by
  unfold digitChar
  split <;> decide

theorem digitChar_not_special (d : Nat) :
    ¬ (digitChar d = '|') ∧ ¬ (digitChar d = '\n') ∧
    ¬ (digitChar d = '-') ∧ ¬ (digitChar d = '+') ∧
    (digitChar d).isWhitespace = false := by
  unfold digitChar
  split <;> refine ⟨by decide, by decide, by decide, by decide, by decide⟩

theorem digitChar_toNat {d : Nat} (h : d < 10) :
    (digitChar d).toNat = 48 + d := by
  interval_cases d <;> decide

theorem natDigits_ne_nil (n : Nat) : ¬ (natDigits n = []) := by
  rw [natDigits]
  by_cases h : n < 10
  · simp [h]
  · simp [h]

theorem natDigits_all_digits (n : Nat) :
    ∀ c ∈ natDigits n, c.isDigit = true := by
  induction n using Nat.strong_induction_on with
  | _ n ih =>
      rw [natDigits]
      by_cases h : n < 10
      · simp only [h, dif_pos]
        intro c hc
        rw [List.mem_singleton.mp hc]
        exact digitChar_isDigit n
      · simp only [h, dif_neg]
        intro c hc
        rcases List.mem_append.mp hc with hc | hc
        · exact ih (n / 10) (by omega) c hc
        · rw [List.mem_singleton.mp hc]
          exact digitChar_isDigit _

theorem natDigits_no_special (n : Nat) :
    ∀ c ∈ natDigits n, ¬ (c = '|') ∧ ¬ (c = '\n') := by
  intro c hc
  have hd := natDigits_all_digits n c hc
  constructor
  · intro he
    rw [he] at hd
    simp [Char.isDigit] at hd
  · intro he
    rw [he] at hd
    simp [Char.isDigit] at hd

theorem atoiDigits_natDigits (n : Nat) :
    ∀ (rest : List Char) (acc : Nat),
      atoiDigits (natDigits n ++ rest) acc
        = atoiDigits rest (acc * 10 ^ (natDigits n).length + n) := by
  induction n using Nat.strong_induction_on with
  | _ n ih =>
      intro rest acc
      rw [natDigits]
      by_cases h : n < 10
      · rw [dif_pos h]
        rw [List.singleton_append]
        rw [atoiDigits, if_pos (digitChar_isDigit n), digitChar_toNat h]
        simp only [List.length_singleton, pow_one]
        congr 1
        omega
      · rw [dif_neg h]
        rw [List.append_assoc, List.singleton_append]
        rw [ih (n / 10) (by omega) (digitChar (n % 10) :: rest) acc]
        rw [atoiDigits, if_pos (digitChar_isDigit _),
          digitChar_toNat (by omega : n % 10 < 10)]
        congr 1
        rw [List.length_append, List.length_singleton, pow_succ]
        have h48 : 48 + n % 10 - 48 = n % 10 := by omega
        rw [h48]
        have key : n / 10 * 10 + n % 10 = n := by omega
        calc (acc * 10 ^ (natDigits (n / 10)).length + n / 10) * 10 + n % 10
            = acc * (10 ^ (natDigits (n / 10)).length * 10)
              + (n / 10 * 10 + n % 10) := by ring
          _ = acc * (10 ^ (natDigits (n / 10)).length * 10) + n := by rw [key]

theorem atoiDigits_natDigits_nil (n : Nat) :
    atoiDigits (natDigits n) 0 = n := by
  have h := atoiDigits_natDigits n [] 0
  rw [List.append_nil] at h
  rw [h]
  simp [atoiDigits]

theorem isDigit_not_ws {c : Char} (h : c.isDigit = true) :
    c.isWhitespace = false := by
  rcases hx : c.isWhitespace with _ | _
  · rfl
  · exfalso
    simp only [Char.isWhitespace, Bool.or_eq_true, decide_eq_true_eq] at hx
    rcases hx with ((h1 | h1) | h1) | h1 <;>
      (rw [h1] at h; exact absurd h (by decide))

theorem isDigit_ne_minus {c : Char} (h : c.isDigit = true) : ¬ (c = '-') := by
  intro he
  rw [he] at h
  exact absurd h (by decide)

theorem isDigit_ne_plus {c : Char} (h : c.isDigit = true) : ¬ (c = '+') := by
  intro he
  rw [he] at h
  exact absurd h (by decide)

theorem atoi_cons_reduce (c : Char) (rest : List Char)
    (hw : c.isWhitespace = false) :
    atoi (c :: rest) = (if c = '-' then - (atoiDigits rest 0 : Int)
      else if c = '+' then (atoiDigits rest 0 : Int)
      else (atoiDigits (c :: rest) 0 : Int)) := by
  unfold atoi
  rw [List.dropWhile_cons_of_neg (by simp [hw])]

theorem atoi_intChars (z : Int) : atoi (intChars z) = z := by
  unfold intChars
  by_cases hz : z < 0
  · rw [if_pos hz]
    rw [atoi_cons_reduce _ _ (by decide), if_pos rfl]
    rw [atoiDigits_natDigits_nil]
    omega
  · rw [if_neg hz]
    rcases hnd : natDigits z.toNat with _ | ⟨c, cs⟩
    · exact absurd hnd (natDigits_ne_nil _)
    · have hcdig : c.isDigit = true := by
        apply natDigits_all_digits z.toNat
        rw [hnd]
        simp
      rw [atoi_cons_reduce _ _ (isDigit_not_ws hcdig)]
      rw [if_neg (isDigit_ne_minus hcdig), if_neg (isDigit_ne_plus hcdig)]
      rw [← hnd, atoiDigits_natDigits_nil]
      omega

theorem intChars_clean (z : Int) :
    ¬ (intChars z = []) ∧ ∀ c ∈ intChars z, ¬ (c = '|') ∧ ¬ (c = '\n') := by
  unfold intChars
  by_cases hz : z < 0
  · rw [if_pos hz]
    refine ⟨by simp, ?hg⟩
    intro c hc
    rcases List.mem_cons.mp hc with rfl | hc
    · exact ⟨by decide, by decide⟩
    · exact natDigits_no_special _ c hc
  · rw [if_neg hz]
    exact ⟨natDigits_ne_nil _, natDigits_no_special _⟩

-- --- Tokenisation lemmas ---

theorem takeWhile_append_stop (ch : Char) (f r : List Char)
    (hf : ∀ c ∈ f, ¬ (c = ch)) :
    (f ++ ch :: r).takeWhile (fun d => !(d == ch)) = f := by
  induction f with
  | nil => simp [List.takeWhile_cons]
  | cons a f ih =>
      have ha : ¬ (a = ch) := hf a (by simp)
      simp only [List.cons_append, List.takeWhile_cons]
      rw [show (!(a == ch)) = true by simp [ha]]
      simp only [if_true]
      rw [ih (fun c hc => hf c (by simp [hc]))]

theorem dropWhile_append_stop (ch : Char) (f r : List Char)
    (hf : ∀ c ∈ f, ¬ (c = ch)) :
    (f ++ ch :: r).dropWhile (fun d => !(d == ch)) = ch :: r := by
  induction f with
  | nil => simp [List.dropWhile_cons]
  | cons a f ih =>
      have ha : ¬ (a = ch) := hf a (by simp)
      simp only [List.cons_append, List.dropWhile_cons]
      rw [show (!(a == ch)) = true by simp [ha]]
      simp only [if_true]
      exact ih (fun c hc => hf c (by simp [hc]))

theorem takeWhile_all (ch : Char) (f : List Char)
    (hf : ∀ c ∈ f, ¬ (c = ch)) :
    f.takeWhile (fun d => !(d == ch)) = f := by
  induction f with
  | nil => rfl
  | cons a f ih =>
      have ha : ¬ (a = ch) := hf a (by simp)
      simp only [List.takeWhile_cons]
      rw [show (!(a == ch)) = true by simp [ha]]
      simp only [if_true]
      rw [ih (fun c hc => hf c (by simp [hc]))]

theorem dropWhile_all (ch : Char) (f : List Char)
    (hf : ∀ c ∈ f, ¬ (c = ch)) :
    f.dropWhile (fun d => !(d == ch)) = [] := by
  induction f with
  | nil => rfl
  | cons a f ih =>
      have ha : ¬ (a = ch) := hf a (by simp)
      simp only [List.dropWhile_cons]
      rw [show (!(a == ch)) = true by simp [ha]]
      simp only [if_true]
      exact ih (fun c hc => hf c (by simp [hc]))

theorem splitTokens_nil : splitTokens [] = [] := by
  rw [splitTokens]

theorem splitTokens_pipe (r : List Char) :
    splitTokens ('|' :: r) = splitTokens r := by
  rw [splitTokens]
  rw [if_pos rfl]

theorem splitTokens_joinFields : ∀ (fs : List (List Char)),
    (∀ f ∈ fs, ¬ (f = []) ∧ ∀ c ∈ f, ¬ (c = '|')) →
    splitTokens (joinFields fs) = fs := by
  intro fs
  induction fs with
  | nil => intro _; exact splitTokens_nil
  | cons f fs ih =>
      intro hclean
      obtain ⟨hne, hnp⟩ := hclean f (by simp)
      rcases f with _ | ⟨c, f'⟩
      · exact absurd rfl hne
      have hc : ¬ (c = '|') := hnp c (by simp)
      have hf' : ∀ x ∈ f', ¬ (x = '|') := fun x hx => hnp x (by simp [hx])
      rcases fs with _ | ⟨g, gs⟩
      · show splitTokens (c :: f') = [c :: f']
        rw [splitTokens, if_neg hc, takeWhile_all _ _ hf', dropWhile_all _ _ hf',
          splitTokens_nil]
      · show splitTokens (c :: (f' ++ '|' :: joinFields (g :: gs))) = _
        rw [splitTokens, if_neg hc,
          takeWhile_append_stop _ _ _ hf', dropWhile_append_stop _ _ _ hf',
          splitTokens_pipe,
          ih (fun x hx => hclean x (by simp [hx]))]

theorem toLines_append (l r : List Char) (hl : ∀ c ∈ l, ¬ (c = '\n')) :
    toLines (l ++ '\n' :: r) = l :: toLines r := by
  rcases l with _ | ⟨c, l'⟩
  · rw [show ([] : List Char) ++ '\n' :: r = '\n' :: r from rfl, toLines]
    simp [List.takeWhile_cons, List.dropWhile_cons]
  · have hl' : ∀ x ∈ l', ¬ (x = '\n') := fun x hx => hl x (by simp [hx])
    have hc : ¬ (c = '\n') := hl c (by simp)
    show toLines (c :: (l' ++ '\n' :: r)) = _
    rw [toLines]
    rw [show c :: (l' ++ '\n' :: r) = (c :: l') ++ '\n' :: r from rfl]
    rw [takeWhile_append_stop _ _ _ hl, dropWhile_append_stop _ _ _ hl]
    simp

theorem toLines_flatten : ∀ (lines : List (List Char)),
    (∀ l ∈ lines, ∀ c ∈ l, ¬ (c = '\n')) →
    toLines ((lines.map (fun l => l ++ ['\n'])).flatten) = lines := by
  intro lines
  induction lines with
  | nil =>
      intro _
      simp only [List.map_nil, List.flatten_nil]
      rw [toLines]
  | cons l ls ih =>
      intro hclean
      simp only [List.map_cons, List.flatten_cons, List.append_assoc,
        List.singleton_append]
      rw [toLines_append _ _ (hclean l (by simp)),
        ih (fun x hx => hclean x (by simp [hx]))]

-- --- Record line round trips ---

theorem mem_joinFields : ∀ (fs : List (List Char)) (c : Char),
    c ∈ joinFields fs → c = '|' ∨ ∃ f ∈ fs, c ∈ f := by
  intro fs
  induction fs with
  | nil => intro c hc; simp [joinFields] at hc
  | cons f fs ih =>
      intro c hc
      rcases fs with _ | ⟨g, gs⟩
      · exact Or.inr ⟨f, by simp, hc⟩
      · rcases List.mem_append.mp hc with hc | hc
        · exact Or.inr ⟨f, by simp, hc⟩
        · rcases List.mem_cons.mp hc with rfl | hc
          · exact Or.inl rfl
          · rcases ih c hc with h | ⟨f', hf', hcf⟩
            · exact Or.inl h
            · exact Or.inr ⟨f', by simp [hf'], hcf⟩

theorem parseBookLine_bookLine (b : Book) (hb : cleanBook b) :
    parseBookLine (bookLine b) = some b := by
  obtain ⟨hi, ht, ha, hg⟩ := hb
  have hsplit : splitTokens (joinFields [b.isbn.data, b.title.data,
      b.author.data, b.genre.data, intChars (if b.available then 1 else 0),
      intChars b.borrow_count])
      = [b.isbn.data, b.title.data, b.author.data, b.genre.data,
         intChars (if b.available then 1 else 0), intChars b.borrow_count] := by
    apply splitTokens_joinFields
    intro f hf
    simp only [List.mem_cons, List.not_mem_nil, or_false] at hf
    rcases hf with rfl | rfl | rfl | rfl | rfl | rfl
    · exact ⟨hi.1, fun c hc => (hi.2 c hc).1⟩
    · exact ⟨ht.1, fun c hc => (ht.2 c hc).1⟩
    · exact ⟨ha.1, fun c hc => (ha.2 c hc).1⟩
    · exact ⟨hg.1, fun c hc => (hg.2 c hc).1⟩
    · exact ⟨(intChars_clean _).1, fun c hc => ((intChars_clean _).2 c hc).1⟩
    · exact ⟨(intChars_clean _).1, fun c hc => ((intChars_clean _).2 c hc).1⟩
  unfold bookLine parseBookLine
  rw [hsplit]
  rcases b with ⟨bi, bt, ba, bg, bav, bc⟩
  rcases bav with _ | _ <;> simp [atoi_intChars]

theorem bookLine_no_newline (b : Book) (hb : cleanBook b) :
    ∀ c ∈ bookLine b, ¬ (c = '\n') := by
  obtain ⟨hi, ht, ha, hg⟩ := hb
  intro c hc
  rcases mem_joinFields _ c hc with rfl | ⟨f, hf, hcf⟩
  · decide
  · simp only [List.mem_cons, List.not_mem_nil, or_false] at hf
    rcases hf with rfl | rfl | rfl | rfl | rfl | rfl
    · exact (hi.2 c hcf).2
    · exact (ht.2 c hcf).2
    · exact (ha.2 c hcf).2
    · exact (hg.2 c hcf).2
    · exact ((intChars_clean _).2 c hcf).2
    · exact ((intChars_clean _).2 c hcf).2

theorem parseUserLine_userLine (u : User) (hu : cleanUser u) :
    parseUserLine (userLine u) = some u := by
  obtain ⟨hn, hbor⟩ := hu
  have hsplit : splitTokens (joinFields ([intChars u.id, u.name.data,
      intChars (u.borrowed.length : Int)] ++ u.borrowed.map (fun x => x.data)))
      = [intChars u.id, u.name.data, intChars (u.borrowed.length : Int)]
        ++ u.borrowed.map (fun x => x.data) := by
    apply splitTokens_joinFields
    intro f hf
    rcases List.mem_append.mp hf with hf | hf
    · simp only [List.mem_cons, List.not_mem_nil, or_false] at hf
      rcases hf with rfl | rfl | rfl
      · exact ⟨(intChars_clean _).1, fun c hc => ((intChars_clean _).2 c hc).1⟩
      · exact ⟨hn.1, fun c hc => (hn.2 c hc).1⟩
      · exact ⟨(intChars_clean _).1, fun c hc => ((intChars_clean _).2 c hc).1⟩
    · obtain ⟨x, hx, rfl⟩ := List.mem_map.mp hf
      exact ⟨(hbor x hx).1, fun c hc => ((hbor x hx).2 c hc).1⟩
  unfold userLine parseUserLine
  rw [hsplit]
  show (if (u.borrowed.map (fun x => x.data)).length
        < (atoi (intChars (u.borrowed.length : Int))).toNat then none
      else some _) = some u
  rw [atoi_intChars]
  simp only [Int.toNat_natCast, List.length_map, Nat.lt_irrefl, if_false,
    List.append_eq, List.nil_append]
  have htake : (u.borrowed.map (fun x => x.data)).take u.borrowed.length
      = u.borrowed.map (fun x => x.data) := by
    apply List.take_of_length_le
    simp
  rw [htake, List.map_map]
  have hmapid : u.borrowed.map ((fun t => (⟨t⟩ : String)) ∘ (fun x => x.data))
      = u.borrowed := by
    have hfid : ((fun t => (⟨t⟩ : String)) ∘ (fun x => x.data)) = fun x => x := rfl
    rw [hfid]
    exact List.map_id u.borrowed
  rw [hmapid, atoi_intChars]

theorem userLine_no_newline (u : User) (hu : cleanUser u) :
    ∀ c ∈ userLine u, ¬ (c = '\n') := by
  obtain ⟨hn, hbor⟩ := hu
  intro c hc
  rcases mem_joinFields _ c hc with rfl | ⟨f, hf, hcf⟩
  · decide
  · rcases List.mem_append.mp hf with hf | hf
    · simp only [List.mem_cons, List.not_mem_nil, or_false] at hf
      rcases hf with rfl | rfl | rfl
      · exact ((intChars_clean _).2 c hcf).2
      · exact (hn.2 c hcf).2
      · exact ((intChars_clean _).2 c hcf).2
    · obtain ⟨x, hx, rfl⟩ := List.mem_map.mp hf
      exact ((hbor x hx).2 c hcf).2

-- --- File level round trip ---

theorem flatMap_congr {α β : Type} (l : List α) (f g : α → List β)
    (h : ∀ a ∈ l, f a = g a) : l.flatMap f = l.flatMap g := by
  induction l with
  | nil => rfl
  | cons a l ih =>
      simp only [List.flatMap_cons]
      rw [h a (by simp), ih (fun x hx => h x (by simp [hx]))]

theorem flatMap_range_update_perm : ∀ (n h : Nat), h < n →
    ∀ (t : Nat → List Book) (nb : Book),
    List.Perm ((List.range n).flatMap (fun i => if i = h then nb :: t h else t i))
      (nb :: (List.range n).flatMap t) := by
  intro n
  induction n with
  | zero => intro h hh; omega
  | succ n ih =>
      intro h hh t nb
      rw [List.range_succ, List.flatMap_append, List.flatMap_append]
      by_cases hhn : h = n
      · subst hhn
        have hrest : (List.range h).flatMap (fun i => if i = h then nb :: t h else t i)
            = (List.range h).flatMap t := by
          apply flatMap_congr
          intro i hi
          rw [if_neg (by simp only [List.mem_range] at hi; omega)]
        rw [hrest]
        have hlast : [h].flatMap (fun i => if i = h then nb :: t h else t i)
            = nb :: t h := by
          simp
        rw [hlast]
        have hlast2 : [h].flatMap t = t h := by simp
        rw [hlast2]
        exact List.perm_middle
      · have hlast : [n].flatMap (fun i => if i = h then nb :: t h else t i)
            = t n := by
          have hne : ¬ (n = h) := fun e => hhn e.symm
          simp [hne]
        rw [hlast]
        have hlast2 : [n].flatMap t = t n := by simp
        rw [hlast2]
        have := (ih h (by omega) t nb).append_right (t n)
        exact this.trans (by rw [List.cons_append])

theorem allBooks_load_book_record (st : LibState) (nb : Book)
    (line : List Char) (hp : parseBookLine line = some nb) :
    List.Perm (allBooks (load_book_record st line)) (nb :: allBooks st) := by
  unfold load_book_record
  rw [hp]
  show List.Perm ((List.range HASH_TABLE_SIZE).flatMap
    (fun i => if i = hash_function nb.isbn
              then nb :: st.table (hash_function nb.isbn) else st.table i)) _
  exact flatMap_range_update_perm HASH_TABLE_SIZE (hash_function nb.isbn)
    (hash_function_lt _) st.table nb

theorem load_books_fold (books : List Book) :
    ∀ (st : LibState), (∀ b ∈ books, cleanBook b) →
    List.Perm (allBooks ((books.map bookLine).foldl load_book_record st))
      (books ++ allBooks st) := by
  induction books with
  | nil => intro st _; simp
  | cons b bs ih =>
      intro st hcl
      simp only [List.map_cons, List.foldl_cons]
      have h1 := allBooks_load_book_record st b (bookLine b)
        (parseBookLine_bookLine b (hcl b (by simp)))
      have h2 := ih (load_book_record st (bookLine b))
        (fun x hx => hcl x (by simp [hx]))
      refine h2.trans ?hrest
      refine (List.Perm.append_left bs h1).trans ?hrest2
      show List.Perm (bs ++ b :: allBooks st) ((b :: bs) ++ allBooks st)
      rw [List.cons_append]
      exact List.perm_middle

theorem toLines_save_books (s : LibState)
    (hwf : ∀ b ∈ allBooks s, cleanBook b) :
    toLines (save_books_to_file s) = (allBooks s).map bookLine := by
  unfold save_books_to_file
  have hm : (allBooks s).map (fun b => bookLine b ++ ['\n'])
      = ((allBooks s).map bookLine).map (fun l => l ++ ['\n']) := by
    rw [List.map_map]
    rfl
  rw [hm]
  apply toLines_flatten
  intro l hl
  obtain ⟨b, hb, rfl⟩ := List.mem_map.mp hl
  exact bookLine_no_newline b (hwf b hb)

theorem allBooks_initState : allBooks initState = [] := by decide

theorem load_save_books_perm (s t : LibState)
    (hwf : ∀ b ∈ allBooks s, cleanBook b) :
    List.Perm (allBooks (load_books_from_file (save_books_to_file s) t))
      (allBooks s ++ allBooks t) := by
  unfold load_books_from_file
  rw [toLines_save_books s hwf]
  exact load_books_fold (allBooks s) t hwf

theorem toLines_save_users (s : LibState)
    (hwf : ∀ u ∈ s.users, cleanUser u) :
    toLines (save_users_to_file s) = s.users.map userLine := by
  unfold save_users_to_file
  have hm : s.users.map (fun u => userLine u ++ ['\n'])
      = (s.users.map userLine).map (fun l => l ++ ['\n']) := by
    rw [List.map_map]
    rfl
  rw [hm]
  apply toLines_flatten
  intro l hl
  obtain ⟨u, hu, rfl⟩ := List.mem_map.mp hl
  exact userLine_no_newline u (hwf u hu)

theorem load_users_fold (users : List User) :
    ∀ (acc : List User × Int), (∀ u ∈ users, cleanUser u) →
    ((users.map userLine).foldl load_user_record acc).1
      = users.reverse ++ acc.1 := by
  induction users with
  | nil => intro acc _; simp
  | cons u us ih =>
      intro acc hcl
      simp only [List.map_cons, List.foldl_cons, List.reverse_cons,
        List.append_assoc, List.singleton_append]
      have hstep : load_user_record acc (userLine u)
          = (u :: acc.1, if u.id > acc.2 then u.id else acc.2) := by
        unfold load_user_record
        rw [parseUserLine_userLine u (hcl u (by simp))]
      rw [hstep, ih _ (fun x hx => hcl x (by simp [hx]))]

theorem foldl_cons_reverse (l : List User) :
    ∀ (acc : List User), l.foldl (fun acc u => u :: acc) acc = l.reverse ++ acc := by
  induction l with
  | nil => intro acc; simp
  | cons u us ih =>
      intro acc
      simp only [List.foldl_cons, List.reverse_cons, List.append_assoc,
        List.singleton_append]
      rw [ih]

theorem load_save_users_eq (s t : LibState)
    (hwf : ∀ u ∈ s.users, cleanUser u) :
    (load_users_from_file (save_users_to_file s) t).users = s.users := by
  unfold load_users_from_file
  show ((toLines (save_users_to_file s)).foldl load_user_record
    (([] : List User), (1000 : Int))).1.foldl (fun acc u => u :: acc) [] = s.users
  rw [toLines_save_users s hwf,
    load_users_fold s.users (([] : List User), (1000 : Int)) hwf,
    foldl_cons_reverse]
  simp

/-- **C7 counterexample**: a store holding the book
`("111", "A|B", "X", "G", available, 0)` — a title containing the format's
delimiter — does not survive the save/load round trip: the reloaded store
holds `("111", "A", "B", "X", unavailable, 1)` instead, because the
unescaped pipe shifts every later field. -/
theorem roundtrip_pipe_counterexample :
    allBooks (insert_book ({ isbn := "111", title := "A|B", author := "X", genre := "G", available := true, borrow_count := 0 }) initState)
      = [({ isbn := "111", title := "A|B", author := "X", genre := "G", available := true, borrow_count := 0 })] ∧
    allBooks (load_users_from_file
        (save_users_to_file (insert_book ({ isbn := "111", title := "A|B", author := "X", genre := "G", available := true, borrow_count := 0 }) initState))
        (load_books_from_file
          (save_books_to_file (insert_book ({ isbn := "111", title := "A|B", author := "X", genre := "G", available := true, borrow_count := 0 }) initState))
          initState))
      = [({ isbn := "111", title := "A", author := "B", genre := "X", available := false, borrow_count := 1 })] ∧
    ¬ (({ isbn := "111", title := "A|B", author := "X", genre := "G", available := true, borrow_count := 0 } : Book)
        ∈ allBooks (load_users_from_file
        (save_users_to_file (insert_book ({ isbn := "111", title := "A|B", author := "X", genre := "G", available := true, borrow_count := 0 }) initState))
        (load_books_from_file
          (save_books_to_file (insert_book ({ isbn := "111", title := "A|B", author := "X", genre := "G", available := true, borrow_count := 0 }) initState))
          initState))) := by
  have hstore : allBooks (insert_book ({ isbn := "111", title := "A|B", author := "X", genre := "G", available := true, borrow_count := 0 }) initState)
      = [({ isbn := "111", title := "A|B", author := "X", genre := "G", available := true, borrow_count := 0 })] := by
    decide
  have hline : bookLine ({ isbn := "111", title := "A|B", author := "X", genre := "G", available := true, borrow_count := 0 })
      = ['1', '1', '1', '|', 'A', '|', 'B', '|', 'X', '|', 'G', '|', '1', '|', '0'] := by
    simp [bookLine, joinFields, intChars, natDigits, digitChar]
  have hsave : save_books_to_file (insert_book ({ isbn := "111", title := "A|B", author := "X", genre := "G", available := true, borrow_count := 0 }) initState)
      = bookLine ({ isbn := "111", title := "A|B", author := "X", genre := "G", available := true, borrow_count := 0 }) ++ ['\n'] := by
    unfold save_books_to_file
    rw [hstore]
    simp
  have hlines : toLines (save_books_to_file (insert_book ({ isbn := "111", title := "A|B", author := "X", genre := "G", available := true, borrow_count := 0 }) initState))
      = [bookLine ({ isbn := "111", title := "A|B", author := "X", genre := "G", available := true, borrow_count := 0 })] := by
    rw [hsave]
    rw [show bookLine ({ isbn := "111", title := "A|B", author := "X", genre := "G", available := true, borrow_count := 0 }) ++ ['\n']
        = bookLine ({ isbn := "111", title := "A|B", author := "X", genre := "G", available := true, borrow_count := 0 }) ++ '\n' :: ([] : List Char) from rfl]
    rw [toLines_append _ _ (by rw [hline]; decide)]
    rw [toLines]
  have hp : parseBookLine (bookLine ({ isbn := "111", title := "A|B", author := "X", genre := "G", available := true, borrow_count := 0 }))
      = some ({ isbn := "111", title := "A", author := "B", genre := "X", available := false, borrow_count := 1 }) := by
    rw [hline]
    simp [parseBookLine, splitTokens, atoi, atoiDigits, digitChar]
  have hload : allBooks (load_books_from_file
      (save_books_to_file (insert_book ({ isbn := "111", title := "A|B", author := "X", genre := "G", available := true, borrow_count := 0 }) initState))
      initState)
      = [({ isbn := "111", title := "A", author := "B", genre := "X", available := false, borrow_count := 1 })] := by
    unfold load_books_from_file
    rw [hlines, List.foldl_cons, List.foldl_nil]
    unfold load_book_record
    rw [hp]
    decide
  refine ⟨hstore, hload, ?hne⟩
  intro hmem
  have hmem2 : ({ isbn := "111", title := "A|B", author := "X", genre := "G", available := true, borrow_count := 0 } : Book)
      ∈ [({ isbn := "111", title := "A", author := "B", genre := "X", available := false, borrow_count := 1 } : Book)] := by
    rw [← hload]
    exact hmem
  have heq : ({ isbn := "111", title := "A|B", author := "X", genre := "G", available := true, borrow_count := 0 } : Book)
      = ({ isbn := "111", title := "A", author := "B", genre := "X", available := false, borrow_count := 1 }) := by
    simpa using hmem2
  exact absurd heq (by decide)

/-- **C7 amended**: for every store whose book and user string fields are
nonempty and free of the pipe delimiter and of newlines, saving the books
and users files and loading both into an empty store yields the same
multiset of book records (hence the same set of
(isbn, title, author, genre, available, borrow_count) tuples) and exactly
the same user list (hence the same set of (id, name, borrowed) tuples);
fields containing `|` or a newline corrupt the unescaped format, as §6 of
the specification warns. -/
theorem persistence_roundtrip_clean (s : LibState)
    (hwfb : ∀ b ∈ allBooks s, cleanBook b)
    (hwfu : ∀ u ∈ s.users, cleanUser u) :
    List.Perm (allBooks (load_users_from_file (save_users_to_file s)
        (load_books_from_file (save_books_to_file s) initState)))
      (allBooks s) ∧
    (load_users_from_file (save_users_to_file s)
        (load_books_from_file (save_books_to_file s) initState)).users
      = s.users := by
  constructor
  · show List.Perm (allBooks (load_books_from_file (save_books_to_file s) initState)) (allBooks s)
    have h := load_save_books_perm s initState hwfb
    rw [allBooks_initState, List.append_nil] at h
    exact h
  · exact load_save_users_eq s _ hwfu

/-- **C7 witness**: the round trip evaluated on a clean one-book, one-user
store with an open loan. -/
theorem persistence_roundtrip_clean_witness :
    (∀ b ∈ allBooks (runOps [.addBook "111" "Go" "A" "T", .addUser "Ann", .issue 1001 "111"] initState), cleanBook b) ∧
    (∀ u ∈ (runOps [.addBook "111" "Go" "A" "T", .addUser "Ann", .issue 1001 "111"] initState).users, cleanUser u) ∧
    (List.Perm (allBooks (load_users_from_file
        (save_users_to_file (runOps [.addBook "111" "Go" "A" "T", .addUser "Ann", .issue 1001 "111"] initState))
        (load_books_from_file (save_books_to_file (runOps [.addBook "111" "Go" "A" "T", .addUser "Ann", .issue 1001 "111"] initState)) initState)))
      (allBooks (runOps [.addBook "111" "Go" "A" "T", .addUser "Ann", .issue 1001 "111"] initState)) ∧
    (load_users_from_file
        (save_users_to_file (runOps [.addBook "111" "Go" "A" "T", .addUser "Ann", .issue 1001 "111"] initState))
        (load_books_from_file (save_books_to_file (runOps [.addBook "111" "Go" "A" "T", .addUser "Ann", .issue 1001 "111"] initState)) initState)).users
      = (runOps [.addBook "111" "Go" "A" "T", .addUser "Ann", .issue 1001 "111"] initState).users) :=
  ⟨by decide, by decide,
   persistence_roundtrip_clean
     (runOps [.addBook "111" "Go" "A" "T", .addUser "Ann", .issue 1001 "111"] initState)
     (by decide) (by decide)⟩

/-- **C8 counterexample**: after adding users "A" (id 1001) then "B"
(id 1002), the traversal order is `[1002, 1001]`; saving and reloading the
users file leaves the traversal order `[1002, 1001]` — still
most-recently-added first, NOT the original creation order `[1001, 1002]`
that the claim asserts (the loader's second loop re-reverses the prepended
temporary list). -/
theorem reload_order_counterexample :
    (runOps [.addUser "A", .addUser "B"] initState).users.map (fun u => u.id)
      = [1002, 1001] ∧
    (load_users_from_file
        (save_users_to_file (runOps [.addUser "A", .addUser "B"] initState))
        initState).users.map (fun u => u.id) = [1002, 1001] ∧
    ¬ ((load_users_from_file
        (save_users_to_file (runOps [.addUser "A", .addUser "B"] initState))
        initState).users.map (fun u => u.id) = [1001, 1002]) := by
  have h := load_save_users_eq (runOps [.addUser "A", .addUser "B"] initState)
    initState (by decide)
  refine ⟨by decide, ?p2, ?p3⟩
  case p2 =>
    rw [h]
    decide
  case p3 =>
    rw [h]
    decide

/-- **C8 amended**: `all()` traverses users most-recently-added first
(`add_user` prepends), and a save/reload cycle of a clean store preserves
that traversal order exactly (the loader restores file order, which is the
saved traversal order) — it does not revert to creation order. -/
theorem user_traversal_order (name : String) (t s : LibState)
    (hwfu : ∀ u ∈ s.users, cleanUser u) :
    (add_user name s).users
      = ({ id := s.nextUserId, name := name, borrowed := [] }) :: s.users ∧
    (load_users_from_file (save_users_to_file s) t).users = s.users :=
  ⟨rfl, load_save_users_eq s t hwfu⟩

/-- **C8 amended witness**: order preservation evaluated on a two-user
store. -/
theorem user_traversal_order_witness :
    (∀ u ∈ (runOps [.addUser "A", .addUser "B"] initState).users, cleanUser u) ∧
    ((add_user "C" (runOps [.addUser "A", .addUser "B"] initState)).users
      = ({ id := (runOps [.addUser "A", .addUser "B"] initState).nextUserId, name := "C", borrowed := [] })
        :: (runOps [.addUser "A", .addUser "B"] initState).users ∧
    (load_users_from_file
        (save_users_to_file (runOps [.addUser "A", .addUser "B"] initState))
        initState).users = (runOps [.addUser "A", .addUser "B"] initState).users) :=
  ⟨by decide,
   user_traversal_order "C" initState
     (runOps [.addUser "A", .addUser "B"] initState) (by decide)⟩
